import Mathlib

/-!
Verification of the file-mark application subsystem of ytt
(`pkg/cmd/template/regular_input.go`): the mark-directive parser, the
glob-style path-pattern matcher (`fileMarkMatches`), the mark applier
(`applyFileMarks`) and the output-format selector (`Output`), shallowly
embedded as executable Lean definitions, together with theorems settling
the specification claims.

Go strings are modelled as `List Char` (the relevant string operations —
`strings.SplitN`, `strings.Replace`, `regexp.QuoteMeta` — act uniformly,
so the byte/rune distinction is immaterial for the ASCII tokens involved).
Go's in-place mutation of `*files.File` objects shared between the file
slice and the `exclusiveForOutputFiles` accumulator is modelled by an
arena (`List File`) addressed by stable indices; the file slice becomes a
list of `Option Nat` slots (`none` is the `nil` left by an
`exclude=true` mark) and the accumulator a list of indices.
-/

namespace Ytt

/-! ## Go string primitives -/

/-- The special bytes escaped by Go's `regexp.QuoteMeta`. -/
def goRegexSpecial (c : Char) : Bool :=
  c = '\\' || c = '.' || c = '+' || c = '*' || c = '?' || c = '(' || c = ')' ||
  c = '|' || c = '[' || c = ']' || c = '\x7b' || c = '\x7d' || c = '^' || c = '$'

/-- Go's `regexp.QuoteMeta`: escape every regex metacharacter with a backslash. -/
def quoteMeta (s : List Char) : List Char :=
  s.flatMap fun c => if goRegexSpecial c then ['\\', c] else [c]

/-- Go's `strings.Replace(s, old, new, 1)`: replace the first (leftmost)
occurrence of `old` in `s` by `new`; `s` unchanged when `old` does not occur. -/
def replaceFirst (s old new : List Char) : List Char :=
  match s with
  | [] => if old.isPrefixOf ([] : List Char) then new else []
  | c :: cs =>
    if old.isPrefixOf (c :: cs) then new ++ (c :: cs).drop old.length
    else c :: replaceFirst cs old new

/-- Go's `strings.SplitN(s, sep, 2)` for a one-character separator, reported as
`some (before, after)` when the separator occurs and `none` when it does not
(in which case Go returns a one-element slice and the caller errors). -/
def splitFirst (sep : Char) : List Char → Option (List Char × List Char)
  | [] => none
  | c :: cs =>
    if c = sep then some ([], cs)
    else (splitFirst sep cs).map fun p => (c :: p.1, p.2)

/-! ## The compiled regular expression

`fileMarkMatches` builds the regex string
`"^" ++ translatePattern p ++ "$"` and runs Go's RE2 engine on it.  Every
string `translatePattern` can produce is a concatenation of escaped literal
characters and the two tokens `.+` and `[^/]+` inserted by the wildcard
substitutions, so the anchored regex denotes a full-string match of a list
of three kinds of atoms.  `lexRegex` decodes the produced regex string into
that atom list and `rmatch` is the (standard) matching semantics: `.+` is
one-or-more characters other than newline (Go's default `.` excludes
newline), `[^/]+` is one-or-more characters other than `/`. -/

/-- One atom of the regexes produced by the pattern translation. -/
inductive RTok where
  | lit (c : Char)
  | nonSlashPlus
  | anyPlus
deriving DecidableEq, Repr

/-- Decode the regex string produced by the pattern translation into atoms:
`\c` is the literal `c`, `[^/]+` and `.+` are the two wildcard tokens, and
any other character stands for itself. -/
def lexRegex : List Char → List RTok
  | [] => []
  | ['\\'] => [.lit '\\']
  | '\\' :: d :: rest => .lit d :: lexRegex rest
  | '[' :: '^' :: '/' :: ']' :: '+' :: rest => .nonSlashPlus :: lexRegex rest
  | '.' :: '+' :: rest => .anyPlus :: lexRegex rest
  | c :: rest => .lit c :: lexRegex rest

/-- Matching of a one-or-more atom: consume one admissible character, then
either hand over to the rest of the regex or consume more. -/
def rmatchPlus (ok : Char → Bool) (next : List Char → Bool) : List Char → Bool
  | [] => false
  | x :: xs => ok x && (next xs || rmatchPlus ok next xs)

/-- Full-string matching of an atom list (the anchored regex) against a path. -/
def rmatch : List RTok → List Char → Bool
  | [], s => s.isEmpty
  | .lit c :: ts, s =>
    match s with
    | [] => false
    | x :: xs => c = x && rmatch ts xs
  | .nonSlashPlus :: ts, s => rmatchPlus (fun x => !(x = '/')) (rmatch ts) s
  | .anyPlus :: ts, s => rmatchPlus (fun x => !(x = '\n')) (rmatch ts) s

/-! ## The pattern matcher (`fileMarkMatches`) -/

/-- The package-level variables of `regular_input.go`:
`quotedMultiLevel = regexp.QuoteMeta("**/*")`. -/
def quotedMultiLevel : List Char := quoteMeta "**/*".data

/-- Package-level variable `quotedSingleLevel = regexp.QuoteMeta("*")`. -/
def quotedSingleLevel : List Char := quoteMeta "*".data

/-- The body of `fileMarkMatches` before compilation: quote the pattern, then
replace the first occurrence of the quoted `**/*` by `.+`, then the first
occurrence of the quoted `*` by `[^/]+`. -/
def translatePattern (p : List Char) : List Char :=
  replaceFirst (replaceFirst (quoteMeta p) quotedMultiLevel ['.', '+'])
    quotedSingleLevel ['[', '^', '/', ']', '+']

/-- `fileMarkMatches` of `regular_input.go`: does the glob `pattern` match the
file's original relative path?  (The compiled regex is `^ … $`-anchored, so
matching is full-string.) -/
def fileMarkMatches (pattern origPath : String) : Bool :=
  rmatch (lexRegex (translatePattern pattern.data)) origPath.data

/-! ## The data model

The `files` package is not part of the sources under study; the `File`
record and its mark setters are modelled from the spec. -/

/-- Modelled from the spec: the enumerated `contentType` of a file
(`files.TypeYAML`, `files.TypeText`, `files.TypeStarlark`,
`files.TypeUnknown`), mutated only by a `type` directive. -/
inductive ContentType where
  | yaml
  | text
  | starlark
  | unknown
deriving DecidableEq, Repr

/-- Modelled from the spec: one input file flowing through the pipeline, with
its immutable identity `originalRelativePath` and the four attributes the
mark directives mutate (`files.File` itself lives outside the studied
sources). -/
structure File where
  originalRelativePath : String
  markedRelativePath : String
  contentType : ContentType
  templateEnabled : Bool
  forOutput : Bool
deriving DecidableEq, Repr

/-- Modelled from the spec: `files.File.MarkRelativePath` rewrites only the
mutable `markedRelativePath`, never the immutable identity. -/
def File.markRelativePath (f : File) (p : String) : File :=
  ⟨f.originalRelativePath, p, f.contentType, f.templateEnabled, f.forOutput⟩

/-- Modelled from the spec: `files.File.MarkType` sets `contentType`. -/
def File.markType (f : File) (t : ContentType) : File :=
  ⟨f.originalRelativePath, f.markedRelativePath, t, f.templateEnabled, f.forOutput⟩

/-- Modelled from the spec: `files.File.MarkTemplate` sets `templateEnabled`. -/
def File.markTemplate (f : File) (b : Bool) : File :=
  ⟨f.originalRelativePath, f.markedRelativePath, f.contentType, b, f.forOutput⟩

/-- Modelled from the spec: `files.File.MarkForOutput` sets `forOutput`. -/
def File.markForOutput (f : File) (b : Bool) : File :=
  ⟨f.originalRelativePath, f.markedRelativePath, f.contentType, f.templateEnabled, b⟩

/-- Modelled from the spec: `files.File.OriginalRelativePath` dereferences the
file object to read its immutable identity; on the `nil` left in a slice slot
by an `exclude=true` mark there is no object to dereference, which is the
null-dereference hazard §9 of the spec flags (modelled as `ScanOut.panicked`
in the scan below). -/
def File.originalRelativePathRead (f : File) : String := f.originalRelativePath

/-- The error taxonomy of `applyFileMarks` and the spec's §7.
`malformedMarkSyntax` covers both split failures (Go emits two different
messages for them, both of the `MalformedMarkSyntax` kind). -/
inductive MarkError where
  | malformedMarkSyntax (mark : String)
  | unmatchedMarkPattern (mark : String)
  | unknownMarkKey (mark : String)
  | invalidMarkValue (mark : String)
deriving DecidableEq, Repr

/-- The mutable state threaded through `applyFileMarks`: the arena of file
objects (Go's heap of `*files.File`), the `filesToProcess` slice as slots
holding arena indices (`none` = the `nil` written by `exclude=true`), and the
`exclusiveForOutputFiles` accumulator as arena indices. -/
structure MarkState where
  arena : List File
  slots : List (Option Nat)
  excl : List Nat
deriving DecidableEq, Repr

/-! ## The mark directive parser -/

/-- The parse step at the top of `applyFileMarks`' directive loop: split on the
first `:` into `(pathPattern, rest)`; split `rest` on the first `=` into
`(key, value)`.  Each split fails exactly when its separator is absent
(Go's `SplitN(…, 2)` then yields one piece, not two). -/
def parseFileMark (mark : String) : Except MarkError (String × String × String) :=
  match splitFirst ':' mark.data with
  | none => .error (.malformedMarkSyntax mark)
  | some pr =>
    match splitFirst '=' pr.2 with
    | none => .error (.malformedMarkSyntax mark)
    | some kv => .ok (⟨pr.1⟩, ⟨kv.1⟩, ⟨kv.2⟩)

/-! ## The mark applier -/

/-- The `type` directive's six-way value switch: the fixed
`(contentType, templateEnabled)` pair for a legal value, `none` for any
other value. -/
def typePair (v : String) : Option (ContentType × Bool) :=
  if v = "yaml-template" then some (.yaml, true)
  else if v = "yaml-plain" then some (.yaml, false)
  else if v = "text-template" then some (.text, true)
  else if v = "text-plain" then some (.text, false)
  else if v = "starlark" then some (.starlark, false)
  else if v = "data" then some (.unknown, false)
  else none

/-- Outcome of scanning the file collection for one directive. -/
inductive ScanOut where
  | ok (st : MarkState) (matched : Bool)
  | err (st : MarkState) (e : MarkError)
  | panicked (st : MarkState)
deriving DecidableEq, Repr

/-- The inner loop of `applyFileMarks` for one directive: walk the slots in
order (`done` are the already-visited slots, `rest` the remaining ones); on
each slot call `fileMarkMatches` — a `none` slot (a file `nil`ed out by an
earlier `exclude=true`) makes that call dereference `nil`, modelled as
`panicked` — and apply the directive's effect to each matched file. -/
def scanLoop (mark pat key val : String) :
    List (Option Nat) → List (Option Nat) → List File → List Nat → Bool → ScanOut
  | [], done, arena, excl, matched => .ok ⟨arena, done, excl⟩ matched
  | none :: rest, done, arena, excl, _ => .panicked ⟨arena, done ++ none :: rest, excl⟩
  | some fi :: rest, done, arena, excl, matched =>
    match arena[fi]? with
    | none => .panicked ⟨arena, done ++ some fi :: rest, excl⟩
    | some f =>
      if fileMarkMatches pat f.originalRelativePath then
        if key = "path" then
          scanLoop mark pat key val rest (done ++ [some fi])
            (arena.set fi (f.markRelativePath val)) excl true
        else if key = "exclude" then
          if val = "true" then
            scanLoop mark pat key val rest (done ++ [none]) arena excl true
          else .err ⟨arena, done ++ some fi :: rest, excl⟩ (.invalidMarkValue mark)
        else if key = "type" then
          match typePair val with
          | some tb =>
            scanLoop mark pat key val rest (done ++ [some fi])
              (arena.set fi ((f.markType tb.1).markTemplate tb.2)) excl true
          | none => .err ⟨arena, done ++ some fi :: rest, excl⟩ (.invalidMarkValue mark)
        else if key = "for-output" then
          if val = "true" then
            scanLoop mark pat key val rest (done ++ [some fi])
              (arena.set fi (f.markForOutput true)) excl true
          else .err ⟨arena, done ++ some fi :: rest, excl⟩ (.invalidMarkValue mark)
        else if key = "exclusive-for-output" then
          if val = "true" then
            scanLoop mark pat key val rest (done ++ [some fi]) arena (excl ++ [fi]) true
          else .err ⟨arena, done ++ some fi :: rest, excl⟩ (.invalidMarkValue mark)
        else .err ⟨arena, done ++ some fi :: rest, excl⟩ (.unknownMarkKey mark)
      else scanLoop mark pat key val rest (done ++ [some fi]) arena excl matched

/-- Outcome of applying one directive (or a directive list). -/
inductive MarkOut where
  | ok (st : MarkState)
  | err (st : MarkState) (e : MarkError)
  | panicked (st : MarkState)
deriving DecidableEq, Repr

/-- One iteration of `applyFileMarks`' directive loop: parse the mark, scan
the collection applying effects, and fail with the unmatched-pattern error
when the scan completed with zero matches. -/
def applyOneMark (st : MarkState) (mark : String) : MarkOut :=
  match parseFileMark mark with
  | .error e => .err st e
  | .ok (pat, key, val) =>
    match scanLoop mark pat key val st.slots [] st.arena st.excl false with
    | .ok st' matched =>
      if matched then .ok st' else .err st' (.unmatchedMarkPattern mark)
    | .err st' e => .err st' e
    | .panicked st' => .panicked st'

/-- The directive loop of `applyFileMarks`: apply the marks in declaration
order, stopping at the first error (fail-fast, no rollback: the carried state
keeps all mutations made so far). -/
def runMarks : MarkState → List String → MarkOut
  | st, [] => .ok st
  | st, m :: ms =>
    match applyOneMark st m with
    | .ok st' => runMarks st' ms
    | .err st' e => .err st' e
    | .panicked st' => .panicked st'

/-- `clearNils` of `regular_input.go`: drop the `nil` slots, preserving the
relative order of the survivors. -/
def clearNils (slots : List (Option Nat)) : List Nat :=
  slots.filterMap id

/-- One of the two final loops of `applyFileMarks`: `file.MarkForOutput(b)` on
every file referenced by `idxs`, in order. -/
def setForOutputAll (arena : List File) (idxs : List Nat) (b : Bool) : List File :=
  idxs.foldl
    (fun a i =>
      match a[i]? with
      | some f => a.set i (f.markForOutput b)
      | none => a)
    arena

/-- The initial state handed to the directive loop: the ingested files, each
slice slot pointing at its own file object, an empty accumulator. -/
def initState (fs : List File) : MarkState :=
  ⟨fs, (List.range fs.length).map some, []⟩

/-- Result of `applyFileMarks`: on success the final arena, the surviving
slice (as arena indices, in order) and the exclusivity accumulator; on error
or panic the state at that point (mutations persist — Go mutates the file
objects in place). -/
inductive ApplyResult where
  | ok (arena : List File) (survivors : List Nat) (excl : List Nat)
  | err (st : MarkState) (e : MarkError)
  | panicked (st : MarkState)
deriving DecidableEq, Repr

/-- `applyFileMarks` of `regular_input.go`: run all directives in order, then
remove the tombstoned (`nil`) slots, then — if the exclusivity accumulator is
non-empty — set `forOutput := false` on every surviving file and
`forOutput := true` on every accumulator member. -/
def applyFileMarks (fs : List File) (marks : List String) : ApplyResult :=
  match runMarks (initState fs) marks with
  | .err st e => .err st e
  | .panicked st => .panicked st
  | .ok st =>
    let survivors := clearNils st.slots
    if 0 < st.excl.length then
      .ok (setForOutputAll (setForOutputAll st.arena survivors false) st.excl true)
        survivors st.excl
    else .ok st.arena survivors st.excl

/-! ## The output format selector -/

/-- The three serialization strategies of the `Output` switch: `printerFunc =
nil` (default YAML), the JSON printer, and the wrapped file-position printer. -/
inductive PrinterChoice where
  | default
  | json
  | pos
deriving DecidableEq, Repr

/-- What the `Output` method decides to do (the collaborators that then carry
the action out — directory writer, document serializer — are external). -/
inductive OutputAction where
  | propagateError
  | writeDirectory (dir : String)
  | print (p : PrinterChoice)
  | unknownOutputType (token : String)
deriving DecidableEq, Repr

/-- The `Output` method of `RegularFilesSource`: propagate an upstream error;
else, when an output directory is configured, delegate to the directory
writer (the output-type token is never consulted); else dispatch on the
token, failing with the unknown-output-type error before any serialization. -/
def Output (outputDir outputType : String) (hasErr : Bool) : OutputAction :=
  if hasErr then .propagateError
  else if 0 < outputDir.length then .writeDirectory outputDir
  else if outputType = "yaml" then .print .default
  else if outputType = "json" then .print .json
  else if outputType = "pos" then .print .pos
  else .unknownOutputType outputType

/-! ## Helper definitions for the theorems -/

/-- The state carried by any scan outcome (Go mutates the file objects in
place, so the state is observable whether the scan succeeded, errored or
panicked). -/
def ScanOut.state : ScanOut → MarkState
  | .ok st _ => st
  | .err st _ => st
  | .panicked st => st

/-- The state carried by any directive-application outcome. -/
def MarkOut.state : MarkOut → MarkState
  | .ok st => st
  | .err st _ => st
  | .panicked st => st

/-- The final arena of file objects, whatever the outcome. -/
def ApplyResult.arenaOf : ApplyResult → List File
  | .ok arena _ _ => arena
  | .err st _ => st.arena
  | .panicked st => st.arena

/-- The five recognized mark keys. -/
def recognizedKeys : List String :=
  ["path", "exclude", "type", "for-output", "exclusive-for-output"]

/-- The directive's key/value pair is semantically illegal: the key is outside
the five recognized keys, or the value is outside the legal set for its key
(`path` places no restriction on its value). -/
def badKV (key val : String) : Prop :=
  key ∉ recognizedKeys ∨
  (key = "exclude" ∧ val ≠ "true") ∨
  (key = "type" ∧ typePair val = none) ∨
  (key = "for-output" ∧ val ≠ "true") ∨
  (key = "exclusive-for-output" ∧ val ≠ "true")

/-- The error a semantically illegal directive raises at a matched file:
unknown-key for an unrecognized key, invalid-value for a recognized key with
an illegal value. -/
def badErr (key mark : String) : MarkError :=
  if key ∈ recognizedKeys then .invalidMarkValue mark else .unknownMarkKey mark

/-- The six reachable `(contentType, templateEnabled)` pairs of the `type`
directive. -/
def sixPairs : List (ContentType × Bool) :=
  [(.yaml, true), (.yaml, false), (.text, true), (.text, false),
   (.starlark, false), (.unknown, false)]

/-- The six legal values of the `type` directive. -/
def sixTypeValues : List String :=
  ["yaml-template", "yaml-plain", "text-template", "text-plain", "starlark", "data"]

/-- The `(contentType, templateEnabled)` pair of a file. -/
def File.typeState (f : File) : ContentType × Bool :=
  (f.contentType, f.templateEnabled)

/-- Pointwise relational lifting between two arenas: every object of the new
arena descends from the object at the same index of the old arena via `P`. -/
def pointwiseRel (P : File → File → Prop) (a a' : List File) : Prop :=
  ∀ (fi : Nat) (f' : File), a'[fi]? = some f' → ∃ f, a[fi]? = some f ∧ P f f'

/-- The slot holds a live file of `arena` whose original relative path does
not match `pat`. -/
def liveNoMatch (arena : List File) (pat : String) (slot : Option Nat) : Prop :=
  ∃ fi f, slot = some fi ∧ arena[fi]? = some f ∧
    fileMarkMatches pat f.originalRelativePath = false

/-- Every slot index and accumulator index points into the arena. -/
def StateWF (st : MarkState) : Prop :=
  (∀ fi, some fi ∈ st.slots → fi < st.arena.length) ∧
  (∀ fi ∈ st.excl, fi < st.arena.length)

/-! ## Lemmas about the regex lexer -/

theorem lexRegex_nil : lexRegex [] = [] := rfl

theorem lexRegex_esc (d : Char) (rest : List Char) :
    lexRegex ('\\' :: d :: rest) = .lit d :: lexRegex rest := rfl

theorem lexRegex_nonSlashTok (rest : List Char) :
    lexRegex ('[' :: '^' :: '/' :: ']' :: '+' :: rest) = .nonSlashPlus :: lexRegex rest := rfl

theorem lexRegex_anyTok (rest : List Char) :
    lexRegex ('.' :: '+' :: rest) = .anyPlus :: lexRegex rest := rfl

theorem lexRegex_default (c : Char) (rest : List Char)
    (h1 : c ≠ '\\') (h2 : c ≠ '[') (h3 : c ≠ '.') :
    lexRegex (c :: rest) = .lit c :: lexRegex rest := by
  simp [lexRegex, h1, h2, h3]

/-! ## Lemmas about `quoteMeta` -/

theorem quoteMeta_append (a b : List Char) :
    quoteMeta (a ++ b) = quoteMeta a ++ quoteMeta b := by
  simp [quoteMeta]

theorem mem_quoteMeta {c : Char} {s : List Char} (h : c ∈ quoteMeta s) :
    c = '\\' ∨ c ∈ s := by
  simp only [quoteMeta, List.mem_flatMap] at h
  obtain ⟨x, hx, hc⟩ := h
  rcases hq : goRegexSpecial x with _ | _ <;> rw [hq] at hc <;> simp at hc
  · exact .inr (hc ▸ hx)
  · rcases hc with rfl | rfl
    · exact .inl rfl
    · exact .inr hx

theorem star_not_mem_quoteMeta {p : List Char} (h : '*' ∉ p) : '*' ∉ quoteMeta p := by
  intro hm
  rcases mem_quoteMeta hm with h' | h'
  · exact absurd h' (by decide)
  · exact h h'

theorem not_special_ne {c : Char} (hs : goRegexSpecial c = false) :
    c ≠ '\\' ∧ c ≠ '[' ∧ c ≠ '.' := by
  simp [goRegexSpecial] at hs
  tauto

theorem lexRegex_quoteMeta_append (p t : List Char) :
    lexRegex (quoteMeta p ++ t) = p.map RTok.lit ++ lexRegex t := by
  induction p with
  | nil => simp [quoteMeta]
  | cons c cs ih =>
    rcases hs : goRegexSpecial c with _ | _
    · obtain ⟨h1, h2, h3⟩ := not_special_ne hs
      have hq : quoteMeta (c :: cs) ++ t = c :: (quoteMeta cs ++ t) := by
        simp [quoteMeta, hs]
      rw [hq, lexRegex_default c _ h1 h2 h3, ih]
      simp
    · have hq : quoteMeta (c :: cs) ++ t = '\\' :: c :: (quoteMeta cs ++ t) := by
        simp [quoteMeta, hs]
      rw [hq, lexRegex_esc, ih]
      simp

/-! ## Lemmas about `replaceFirst` -/

theorem replaceFirst_not_occurs (s old new : List Char) (h : ∀ l r, s ≠ l ++ old ++ r) :
    replaceFirst s old new = s := by
  induction s with
  | nil =>
    rw [replaceFirst]
    rcases ho : old with _ | ⟨c, cs⟩
    · exact absurd (by simp) (ho ▸ h [] [])
    · simp [List.isPrefixOf]
  | cons c cs ih =>
    rw [replaceFirst]
    by_cases hp : old.isPrefixOf (c :: cs) = true
    · rw [ List.isPrefixOf_iff_prefix] at hp
      obtain ⟨r, hr⟩ := hp
      exact absurd (by simpa using hr.symm) (h [] r)
    · simp only [hp, Bool.false_eq_true, if_false]
      rw [ih]
      intro l r hh
      exact h (c :: l) r (by simp [hh])

theorem count_le_of_occurs {s old : List Char} (c : Char) (l r : List Char)
    (h : s = l ++ old ++ r) : old.count c ≤ s.count c := by
  subst h
  simp [List.count_append]
  omega

theorem replaceFirst_count_lt (s old new : List Char) (c : Char)
    (h : s.count c < old.count c) : replaceFirst s old new = s :=
  replaceFirst_not_occurs s old new fun l r heq =>
    absurd (count_le_of_occurs c l r heq) (by omega)

theorem replaceFirst_mid (a t b new : List Char) (ha : '*' ∉ a) :
    replaceFirst (a ++ ('\\' :: '*' :: t) ++ b) ('\\' :: '*' :: t) new = a ++ new ++ b := by
  induction a with
  | nil =>
    simp only [List.nil_append, List.cons_append]
    rw [replaceFirst]
    have hp : ('\\' :: '*' :: t).isPrefixOf ('\\' :: '*' :: (t ++ b)) = true := by
      rw [ List.isPrefixOf_iff_prefix]
      exact ⟨b, by simp⟩
    rw [if_pos hp]
    simp [List.drop_left]
  | cons x a' ih =>
    have hx : '*' ∉ a' := fun hm => ha (List.mem_cons_of_mem x hm)
    simp only [List.cons_append]
    rw [replaceFirst]
    have hp : ('\\' :: '*' :: t).isPrefixOf (x :: (a' ++ ('\\' :: '*' :: t) ++ b)) = false := by
      rw [Bool.eq_false_iff]
      intro hpp
      rw [ List.isPrefixOf_iff_prefix, List.cons_prefix_cons] at hpp
      obtain ⟨hx1, hpp⟩ := hpp
      rcases ha' : a' with _ | ⟨y, a''⟩
      · subst ha'
        simp only [List.nil_append, List.cons_append] at hpp
        rw [List.cons_prefix_cons] at hpp
        exact absurd hpp.1 (by decide)
      · subst ha'
        simp only [List.cons_append] at hpp
        rw [List.cons_prefix_cons] at hpp
        exact hx (hpp.1 ▸ List.mem_cons_self y a'')
    rw [hp]
    simp only [Bool.false_eq_true, if_false]
    rw [ih hx]

/-! ## Lemmas about the pattern translation -/

theorem quotedMultiLevel_eq : quotedMultiLevel = ['\\', '*', '\\', '*', '/', '\\', '*'] := by
  decide

theorem quotedSingleLevel_eq : quotedSingleLevel = ['\\', '*'] := by decide

theorem count_star_eq_zero {s : List Char} (h : '*' ∉ s) : s.count '*' = 0 :=
  List.count_eq_zero.mpr h

theorem translatePattern_no_star (p : List Char) (h : '*' ∉ p) :
    translatePattern p = quoteMeta p := by
  have hq : (quoteMeta p).count '*' = 0 := count_star_eq_zero (star_not_mem_quoteMeta h)
  have h1 : replaceFirst (quoteMeta p) quotedMultiLevel ['.', '+'] = quoteMeta p :=
    replaceFirst_count_lt _ _ _ '*' (by rw [hq, quotedMultiLevel_eq]; decide)
  have h2 : replaceFirst (quoteMeta p) quotedSingleLevel ['[', '^', '/', ']', '+'] =
      quoteMeta p :=
    replaceFirst_count_lt _ _ _ '*' (by rw [hq, quotedSingleLevel_eq]; decide)
  unfold translatePattern
  rw [h1, h2]

theorem quoteMeta_star_cons (v : List Char) :
    quoteMeta ('*' :: v) = '\\' :: '*' :: quoteMeta v := by
  simp [quoteMeta, goRegexSpecial]

theorem translatePattern_single_star (u v : List Char) (hu : '*' ∉ u) (hv : '*' ∉ v) :
    translatePattern (u ++ '*' :: v) =
      quoteMeta u ++ ('[' :: '^' :: '/' :: ']' :: '+' :: quoteMeta v) := by
  have hcu : (quoteMeta u).count '*' = 0 := count_star_eq_zero (star_not_mem_quoteMeta hu)
  have hcv : (quoteMeta v).count '*' = 0 := count_star_eq_zero (star_not_mem_quoteMeta hv)
  have hstep1 : replaceFirst (quoteMeta u ++ '\\' :: '*' :: quoteMeta v)
      quotedMultiLevel ['.', '+'] = quoteMeta u ++ '\\' :: '*' :: quoteMeta v := by
    apply replaceFirst_count_lt _ _ _ '*'
    have hc : (quoteMeta u ++ '\\' :: '*' :: quoteMeta v).count '*' = 1 := by
      simp [List.count_append, List.count_cons, hcu, hcv]
    rw [hc, quotedMultiLevel_eq]
    decide
  have hstep2 := replaceFirst_mid (quoteMeta u) [] (quoteMeta v)
    ['[', '^', '/', ']', '+'] (star_not_mem_quoteMeta hu)
  unfold translatePattern
  rw [quoteMeta_append, quoteMeta_star_cons, hstep1, quotedSingleLevel_eq]
  simp only [List.append_assoc, List.cons_append, List.nil_append] at hstep2 ⊢
  exact hstep2

theorem translatePattern_multi (u v : List Char) (hu : '*' ∉ u) (hv : '*' ∉ v) :
    translatePattern (u ++ ('*' :: '*' :: '/' :: '*' :: v)) =
      quoteMeta u ++ ('.' :: '+' :: quoteMeta v) := by
  have hcu : (quoteMeta u).count '*' = 0 := count_star_eq_zero (star_not_mem_quoteMeta hu)
  have hcv : (quoteMeta v).count '*' = 0 := count_star_eq_zero (star_not_mem_quoteMeta hv)
  have hmid : quoteMeta ('*' :: '*' :: '/' :: '*' :: v) =
      '\\' :: '*' :: ('\\' :: '*' :: '/' :: '\\' :: '*' :: quoteMeta v) := by
    simp [quoteMeta, goRegexSpecial]
  unfold translatePattern
  rw [quoteMeta_append, hmid, quotedMultiLevel_eq]
  have h1 := replaceFirst_mid (quoteMeta u) ['\\', '*', '/', '\\', '*']
    (quoteMeta v) ['.', '+'] (star_not_mem_quoteMeta hu)
  rw [show quoteMeta u ++ '\\' :: '*' :: ('\\' :: '*' :: '/' :: '\\' :: '*' :: quoteMeta v) =
      quoteMeta u ++ ('\\' :: '*' :: ['\\', '*', '/', '\\', '*']) ++ quoteMeta v by simp]
  rw [h1, quotedSingleLevel_eq]
  rw [replaceFirst_count_lt _ _ _ '*' (by
    simp [List.count_cons, List.count_append, hcu, hcv])]
  simp

/-! ## Lemmas about `rmatch` -/

theorem rmatch_lits (v : List Char) : ∀ s, rmatch (v.map RTok.lit) s = true ↔ s = v := by
  induction v with
  | nil =>
    intro s
    cases s <;> simp [rmatch]
  | cons c v' ih =>
    intro s
    cases s with
    | nil => simp [rmatch]
    | cons x xs =>
      simp only [List.map_cons, rmatch, Bool.and_eq_true, decide_eq_true_eq, ih,
        List.cons.injEq]
      constructor
      · rintro ⟨rfl, rfl⟩
        exact ⟨rfl, rfl⟩
      · rintro ⟨rfl, rfl⟩
        exact ⟨rfl, rfl⟩

theorem rmatchPlus_iff (ok : Char → Bool) (next : List Char → Bool) :
    ∀ s, rmatchPlus ok next s = true ↔
      ∃ m s2, s = m ++ s2 ∧ m ≠ [] ∧ (∀ c ∈ m, ok c = true) ∧ next s2 = true := by
  intro s
  induction s with
  | nil =>
    simp only [rmatchPlus, Bool.false_eq_true, false_iff]
    rintro ⟨m, s2, hs, hm, -, -⟩
    exact hm (List.append_eq_nil.mp hs.symm).1
  | cons x xs ih =>
    simp only [rmatchPlus, Bool.and_eq_true, Bool.or_eq_true]
    constructor
    · rintro ⟨hok, hnext | hmore⟩
      · exact ⟨[x], xs, rfl, by simp, by simpa using hok, hnext⟩
      · obtain ⟨m, s2, hs, hm, hall, hn⟩ := ih.mp hmore
        refine ⟨x :: m, s2, by simp [hs], by simp, ?_, hn⟩
        intro c hc
        rcases List.mem_cons.mp hc with rfl | hc
        · exact hok
        · exact hall c hc
    · rintro ⟨m, s2, hs, hm, hall, hn⟩
      rcases m with _ | ⟨y, m'⟩
      · exact absurd rfl hm
      · simp only [List.cons_append, List.cons.injEq] at hs
        obtain ⟨rfl, hs⟩ := hs
        refine ⟨hall x (List.mem_cons_self x m'), ?_⟩
        rcases m' with _ | ⟨z, m''⟩
        · simp only [List.nil_append] at hs
          exact .inl (by rw [hs]; exact hn)
        · refine .inr (ih.mpr ⟨z :: m'', s2, hs, by simp, ?_, hn⟩)
          intro c hc
          exact hall c (List.mem_cons_of_mem x hc)

theorem rmatch_lit_cons (c : Char) (ts : List RTok) (s : List Char) :
    rmatch (.lit c :: ts) s = true ↔ ∃ xs, s = c :: xs ∧ rmatch ts xs = true := by
  cases s with
  | nil => simp [rmatch]
  | cons x xs =>
    simp only [rmatch, Bool.and_eq_true, decide_eq_true_eq]
    constructor
    · rintro ⟨rfl, h⟩
      exact ⟨xs, rfl, h⟩
    · rintro ⟨xs', hx, h⟩
      injection hx with h1 h2
      subst h1
      subst h2
      exact ⟨rfl, h⟩

theorem rmatch_lits_append (u : List Char) (ts : List RTok) :
    ∀ s, rmatch (u.map RTok.lit ++ ts) s = true ↔
      ∃ s2, s = u ++ s2 ∧ rmatch ts s2 = true := by
  induction u with
  | nil => intro s; simp
  | cons c u' ih =>
    intro s
    simp only [List.map_cons, List.cons_append]
    rw [rmatch_lit_cons]
    constructor
    · rintro ⟨xs, rfl, h⟩
      obtain ⟨s2, rfl, h2⟩ := (ih xs).mp h
      exact ⟨s2, rfl, h2⟩
    · rintro ⟨s2, rfl, h2⟩
      exact ⟨u' ++ s2, rfl, (ih _).mpr ⟨s2, rfl, h2⟩⟩

theorem lexRegex_quoteMeta (p : List Char) : lexRegex (quoteMeta p) = p.map RTok.lit := by
  have h := lexRegex_quoteMeta_append p []
  rw [List.append_nil] at h
  rw [h, lexRegex_nil, List.append_nil]

theorem rmatch_single_star (u v s : List Char) :
    rmatch (u.map RTok.lit ++ RTok.nonSlashPlus :: v.map RTok.lit) s = true ↔
      ∃ m, m ≠ [] ∧ (∀ c ∈ m, ¬(c = '/')) ∧ s = u ++ m ++ v := by
  rw [rmatch_lits_append]
  constructor
  · rintro ⟨s2, rfl, h⟩
    have h' := (rmatchPlus_iff (fun x => !(x = '/')) (rmatch (v.map RTok.lit)) s2).mp
      (by simpa [rmatch] using h)
    obtain ⟨m, s3, rfl, hm, hall, hv⟩ := h'
    rw [rmatch_lits] at hv
    subst hv
    refine ⟨m, hm, ?_, by simp⟩
    intro c hc
    simpa using hall c hc
  · rintro ⟨m, hm, hall, rfl⟩
    refine ⟨m ++ v, by simp, ?_⟩
    show rmatch (RTok.nonSlashPlus :: v.map RTok.lit) (m ++ v) = true
    simp only [rmatch]
    refine (rmatchPlus_iff _ _ _).mpr ⟨m, v, rfl, hm, ?_, (rmatch_lits v v).mpr rfl⟩
    intro c hc
    simpa using hall c hc

theorem rmatch_multi_star (u v s : List Char) :
    rmatch (u.map RTok.lit ++ RTok.anyPlus :: v.map RTok.lit) s = true ↔
      ∃ m, m ≠ [] ∧ (∀ c ∈ m, ¬(c = '\n')) ∧ s = u ++ m ++ v := by
  rw [rmatch_lits_append]
  constructor
  · rintro ⟨s2, rfl, h⟩
    have h' := (rmatchPlus_iff (fun x => !(x = '\n')) (rmatch (v.map RTok.lit)) s2).mp
      (by simpa [rmatch] using h)
    obtain ⟨m, s3, rfl, hm, hall, hv⟩ := h'
    rw [rmatch_lits] at hv
    subst hv
    refine ⟨m, hm, ?_, by simp⟩
    intro c hc
    simpa using hall c hc
  · rintro ⟨m, hm, hall, rfl⟩
    refine ⟨m ++ v, by simp, ?_⟩
    show rmatch (RTok.anyPlus :: v.map RTok.lit) (m ++ v) = true
    simp only [rmatch]
    refine (rmatchPlus_iff _ _ _).mpr ⟨m, v, rfl, hm, ?_, (rmatch_lits v v).mpr rfl⟩
    intro c hc
    simpa using hall c hc

/-! ## Multi-occurrence wildcard patterns

The quoting turns each pattern character into a unit (`\c` for a special
character, `c` itself otherwise), so an occurrence of the quoted token
`\*\*/\*` in a quoted pattern always decodes back to an occurrence of the
raw token `**/*` in the pattern — the lemmas below make that precise and
let the translation of patterns with several wildcard characters be
computed, showing the characters after the substituted wildcards, later
`*`s included, are matched literally. -/

theorem quoteMeta_slash_cons (rest : List Char) :
    quoteMeta ('/' :: rest) = '/' :: quoteMeta rest := by
  simp [quoteMeta, goRegexSpecial]

theorem quoteMeta_ne_star_cons (q rest : List Char) : quoteMeta q ≠ '*' :: rest := by
  intro h
  rcases q with _ | ⟨d, q'⟩
  · simp [quoteMeta] at h
  · rcases hs : goRegexSpecial d with _ | _
    · rw [show quoteMeta (d :: q') = d :: quoteMeta q' from by simp [quoteMeta, hs]] at h
      injection h with h1 _
      subst h1
      exact absurd hs (by decide)
    · rw [show quoteMeta (d :: q') = '\\' :: d :: quoteMeta q' from by
        simp [quoteMeta, hs]] at h
      injection h with h1 _
      exact absurd h1 (by decide)

theorem quoteMeta_eq_backslash_star {q rest : List Char}
    (h : quoteMeta q = '\\' :: '*' :: rest) :
    ∃ q', q = '*' :: q' ∧ quoteMeta q' = rest := by
  rcases q with _ | ⟨d, q'⟩
  · simp [quoteMeta] at h
  · rcases hs : goRegexSpecial d with _ | _
    · rw [show quoteMeta (d :: q') = d :: quoteMeta q' from by simp [quoteMeta, hs]] at h
      injection h with h1 _
      subst h1
      exact absurd hs (by decide)
    · rw [show quoteMeta (d :: q') = '\\' :: d :: quoteMeta q' from by
        simp [quoteMeta, hs]] at h
      injection h with _ h2
      injection h2 with h3 h4
      subst h3
      exact ⟨q', rfl, h4⟩

theorem quoteMeta_eq_slash {q rest : List Char} (h : quoteMeta q = '/' :: rest) :
    ∃ q', q = '/' :: q' ∧ quoteMeta q' = rest := by
  rcases q with _ | ⟨d, q'⟩
  · simp [quoteMeta] at h
  · rcases hs : goRegexSpecial d with _ | _
    · rw [show quoteMeta (d :: q') = d :: quoteMeta q' from by simp [quoteMeta, hs]] at h
      injection h with h1 h2
      subst h1
      exact ⟨q', rfl, h2⟩
    · rw [show quoteMeta (d :: q') = '\\' :: d :: quoteMeta q' from by
        simp [quoteMeta, hs]] at h
      injection h with h1 _
      exact absurd h1 (by decide)

theorem multiTok_of_quoted_multiTok :
    ∀ (p l r : List Char),
      quoteMeta p = l ++ ('\\' :: '*' :: '\\' :: '*' :: '/' :: '\\' :: '*' :: []) ++ r →
      ∃ l' r', p = l' ++ ('*' :: '*' :: '/' :: '*' :: []) ++ r' := by
  intro p
  induction p with
  | nil =>
    intro l r h
    rw [show quoteMeta [] = [] from rfl] at h
    exact absurd h.symm (by simp)
  | cons c p' ih =>
    intro l r h
    rcases l with _ | ⟨x, l'⟩
    · simp only [List.nil_append, List.cons_append] at h
      obtain ⟨q1, hq1, hq1'⟩ := quoteMeta_eq_backslash_star h
      obtain ⟨q2, hq2, hq2'⟩ := quoteMeta_eq_backslash_star hq1'
      obtain ⟨q3, hq3, hq3'⟩ := quoteMeta_eq_slash hq2'
      obtain ⟨q4, hq4, _⟩ := quoteMeta_eq_backslash_star hq3'
      refine ⟨[], q4, ?_⟩
      simp only [List.nil_append, List.cons_append]
      rw [hq1, hq2, hq3, hq4]
    · rcases hs : goRegexSpecial c with _ | _
      · rw [show quoteMeta (c :: p') = c :: quoteMeta p' from by
          simp [quoteMeta, hs]] at h
        simp only [List.cons_append] at h
        injection h with _ h2
        obtain ⟨l0, r0, hp⟩ := ih l' r h2
        exact ⟨c :: l0, r0, by simp [hp]⟩
      · rw [show quoteMeta (c :: p') = '\\' :: c :: quoteMeta p' from by
          simp [quoteMeta, hs]] at h
        simp only [List.cons_append] at h
        injection h with _ h2
        rcases l' with _ | ⟨y, l''⟩
        · simp only [List.nil_append] at h2
          injection h2 with _ h4
          exact absurd h4 (quoteMeta_ne_star_cons p' _)
        · simp only [List.cons_append] at h2
          injection h2 with _ h4
          obtain ⟨l0, r0, hp⟩ := ih l'' r h4
          exact ⟨c :: l0, r0, by simp [hp]⟩

theorem translatePattern_star_literal_suffix (u w : List Char) (hu : '*' ∉ u)
    (hno : ¬ (('*' :: '*' :: '/' :: '*' :: []) <:+: (u ++ '*' :: w))) :
    translatePattern (u ++ '*' :: w) =
      quoteMeta u ++ ('[' :: '^' :: '/' :: ']' :: '+' :: quoteMeta w) := by
  have hnq : ∀ l r, quoteMeta (u ++ '*' :: w) ≠ l ++ quotedMultiLevel ++ r := by
    intro l r heq
    rw [quotedMultiLevel_eq] at heq
    obtain ⟨l', r', hp⟩ := multiTok_of_quoted_multiTok (u ++ '*' :: w) l r heq
    exact hno ⟨l', r', hp.symm⟩
  have hstep1 : replaceFirst (quoteMeta (u ++ '*' :: w)) quotedMultiLevel ['.', '+'] =
      quoteMeta (u ++ '*' :: w) := replaceFirst_not_occurs _ _ _ hnq
  have hstep2 := replaceFirst_mid (quoteMeta u) [] (quoteMeta w)
    ['[', '^', '/', ']', '+'] (star_not_mem_quoteMeta hu)
  unfold translatePattern
  rw [hstep1, quoteMeta_append, quoteMeta_star_cons, quotedSingleLevel_eq]
  simp only [List.append_assoc, List.cons_append, List.nil_append] at hstep2 ⊢
  exact hstep2

theorem translatePattern_multi_then_star (u v x : List Char) (hu : '*' ∉ u) (hv : '*' ∉ v) :
    translatePattern (u ++ '*' :: '*' :: '/' :: '*' :: (v ++ '*' :: x)) =
      quoteMeta u ++ ('.' :: '+' ::
        (quoteMeta v ++ ('[' :: '^' :: '/' :: ']' :: '+' :: quoteMeta x))) := by
  have hq : quoteMeta (u ++ '*' :: '*' :: '/' :: '*' :: (v ++ '*' :: x)) =
      quoteMeta u ++ ('\\' :: '*' ::
        ('\\' :: '*' :: '/' :: '\\' :: '*' :: (quoteMeta v ++ '\\' :: '*' :: quoteMeta x))) := by
    rw [quoteMeta_append, quoteMeta_star_cons, quoteMeta_star_cons, quoteMeta_slash_cons,
      quoteMeta_star_cons, quoteMeta_append, quoteMeta_star_cons]
  have hstar_a : '*' ∉ quoteMeta u ++ '.' :: '+' :: quoteMeta v := by
    intro hm
    rcases List.mem_append.mp hm with h | h
    · exact star_not_mem_quoteMeta hu h
    · rcases List.mem_cons.mp h with h' | h'
      · exact absurd h' (by decide)
      · rcases List.mem_cons.mp h' with h'' | h''
        · exact absurd h'' (by decide)
        · exact star_not_mem_quoteMeta hv h''
  have hstep1 := replaceFirst_mid (quoteMeta u) ['\\', '*', '/', '\\', '*']
    (quoteMeta v ++ '\\' :: '*' :: quoteMeta x) ['.', '+'] (star_not_mem_quoteMeta hu)
  have hstep2 := replaceFirst_mid (quoteMeta u ++ '.' :: '+' :: quoteMeta v) []
    (quoteMeta x) ['[', '^', '/', ']', '+'] hstar_a
  unfold translatePattern
  rw [hq, quotedMultiLevel_eq]
  rw [show quoteMeta u ++ '\\' :: '*' :: ('\\' :: '*' :: '/' :: '\\' :: '*' ::
        (quoteMeta v ++ '\\' :: '*' :: quoteMeta x)) =
      quoteMeta u ++ ('\\' :: '*' :: ['\\', '*', '/', '\\', '*']) ++
        (quoteMeta v ++ '\\' :: '*' :: quoteMeta x) by simp]
  rw [hstep1, quotedSingleLevel_eq]
  rw [show quoteMeta u ++ ['.', '+'] ++ (quoteMeta v ++ '\\' :: '*' :: quoteMeta x) =
      (quoteMeta u ++ '.' :: '+' :: quoteMeta v) ++ ('\\' :: '*' :: []) ++ quoteMeta x
    by simp]
  rw [hstep2]
  simp

theorem rmatch_anyPlus_cons (ts : List RTok) (s : List Char) :
    rmatch (RTok.anyPlus :: ts) s = true ↔
      ∃ m s2, s = m ++ s2 ∧ m ≠ [] ∧ (∀ c ∈ m, ¬(c = '\n')) ∧ rmatch ts s2 = true := by
  show rmatchPlus (fun x => !(x = '\n')) (rmatch ts) s = true ↔ _
  rw [rmatchPlus_iff]
  constructor
  · rintro ⟨m, s2, h1, h2, h3, h4⟩
    refine ⟨m, s2, h1, h2, ?_, h4⟩
    intro c hc
    simpa using h3 c hc
  · rintro ⟨m, s2, h1, h2, h3, h4⟩
    refine ⟨m, s2, h1, h2, ?_, h4⟩
    intro c hc
    simpa using h3 c hc

theorem rmatch_nonSlashPlus_cons (ts : List RTok) (s : List Char) :
    rmatch (RTok.nonSlashPlus :: ts) s = true ↔
      ∃ m s2, s = m ++ s2 ∧ m ≠ [] ∧ (∀ c ∈ m, ¬(c = '/')) ∧ rmatch ts s2 = true := by
  show rmatchPlus (fun x => !(x = '/')) (rmatch ts) s = true ↔ _
  rw [rmatchPlus_iff]
  constructor
  · rintro ⟨m, s2, h1, h2, h3, h4⟩
    refine ⟨m, s2, h1, h2, ?_, h4⟩
    intro c hc
    simpa using h3 c hc
  · rintro ⟨m, s2, h1, h2, h3, h4⟩
    refine ⟨m, s2, h1, h2, ?_, h4⟩
    intro c hc
    simpa using h3 c hc

theorem rmatch_multi_then_single (u v x s : List Char) :
    rmatch (u.map RTok.lit ++ RTok.anyPlus ::
        (v.map RTok.lit ++ RTok.nonSlashPlus :: x.map RTok.lit)) s = true ↔
      ∃ m1 m2, m1 ≠ [] ∧ (∀ c ∈ m1, ¬(c = '\n')) ∧ m2 ≠ [] ∧ (∀ c ∈ m2, ¬(c = '/')) ∧
        s = u ++ m1 ++ v ++ m2 ++ x := by
  rw [rmatch_lits_append]
  constructor
  · rintro ⟨s1, rfl, h⟩
    rw [rmatch_anyPlus_cons] at h
    obtain ⟨m1, s2, rfl, hm1, hn1, h⟩ := h
    rw [rmatch_lits_append] at h
    obtain ⟨s3, rfl, h⟩ := h
    rw [rmatch_nonSlashPlus_cons] at h
    obtain ⟨m2, s4, rfl, hm2, hn2, h⟩ := h
    rw [rmatch_lits] at h
    subst h
    exact ⟨m1, m2, hm1, hn1, hm2, hn2, by simp⟩
  · rintro ⟨m1, m2, hm1, hn1, hm2, hn2, rfl⟩
    refine ⟨m1 ++ (v ++ (m2 ++ x)), by simp, ?_⟩
    rw [rmatch_anyPlus_cons]
    refine ⟨m1, v ++ (m2 ++ x), rfl, hm1, hn1, ?_⟩
    rw [rmatch_lits_append]
    refine ⟨m2 ++ x, rfl, ?_⟩
    rw [rmatch_nonSlashPlus_cons]
    exact ⟨m2, x, rfl, hm2, hn2, (rmatch_lits x x).mpr rfl⟩

/-! ## Claim C5: wildcard-free patterns match exactly -/

/-- C5 (confirmed): for every file path `F` and pattern `P` containing no
wildcard character, `fileMarkMatches` returns true iff `P` is
character-for-character equal to `F` — the regex metacharacters of `P` are
escaped and the compiled regex is anchored at both ends, so the match is an
exact string comparison. -/
theorem fileMarkMatches_no_wildcard_exact (P F : String) (h : '*' ∉ P.data) :
    fileMarkMatches P F = true ↔ P = F := by
  unfold fileMarkMatches
  rw [translatePattern_no_star P.data h, lexRegex_quoteMeta, rmatch_lits]
  constructor
  · intro h'
    exact (String.ext h').symm
  · intro h'
    rw [h']

/-- Witness for C5 at the concrete pattern `a.yml` and path `a.yml`. -/
theorem fileMarkMatches_no_wildcard_exact_witness :
    ('*' ∉ "a.yml".data) ∧ (fileMarkMatches "a.yml" "a.yml" = true ↔ "a.yml" = "a.yml") :=
  ⟨by decide, fileMarkMatches_no_wildcard_exact "a.yml" "a.yml" (by decide)⟩

/-! ## Claim C4: wildcard semantics -/

/-- C4 counterexample: the claim says each occurrence of `*` matches
one-or-more non-separator characters, which would make `*/*` match `a/b`;
the code replaces only the first occurrence of each wildcard token
(`strings.Replace(…, 1)`), leaving the second `*` as a literal asterisk, so
the match fails. -/
theorem fileMarkMatches_second_star_literal : fileMarkMatches "*/*" "a/b" = false := by
  decide

/-- C4 (amended): the code substitutes only the FIRST occurrence of each
wildcard token: the first occurrence of `**/*` (if any) becomes the
multi-segment wildcard (one-or-more characters including separators — any
character but newline, which Go's `.` never matches), and then the first
occurrence of `*` remaining after that substitution becomes the
single-segment wildcard (one-or-more characters excluding the path
separator); every other character of the pattern, any later `*` included, is
matched literally.  Part 1: in a pattern `u*w` with wildcard-free `u` and no
`**/*` token anywhere, only that `*` is a wildcard — the arbitrary suffix
`w`, later `*`s included, must appear in the path character-for-character.
Part 2: `u**/*v` with wildcard-free `u`, `v`.  Part 3: `u**/*v*x` with
wildcard-free `u`, `v` — the `*` after the multi-segment token is the first
remaining `*` and becomes the single-segment wildcard, while the arbitrary
tail `x`, later `*`s included, is matched literally.  The multi-segment
substitution precedes the single-segment one, so the single-segment rule
cannot corrupt the `**/*` token. -/
theorem fileMarkMatches_wildcards_first_occurrence :
    (∀ u w s : List Char, '*' ∉ u →
      ¬ (('*' :: '*' :: '/' :: '*' :: []) <:+: (u ++ '*' :: w)) →
      (fileMarkMatches ⟨u ++ '*' :: w⟩ ⟨s⟩ = true ↔
        ∃ m, m ≠ [] ∧ (∀ c ∈ m, ¬(c = '/')) ∧ s = u ++ m ++ w)) ∧
    (∀ u v s : List Char, '*' ∉ u → '*' ∉ v →
      (fileMarkMatches ⟨u ++ '*' :: '*' :: '/' :: '*' :: v⟩ ⟨s⟩ = true ↔
        ∃ m, m ≠ [] ∧ (∀ c ∈ m, ¬(c = '\n')) ∧ s = u ++ m ++ v)) ∧
    (∀ u v x s : List Char, '*' ∉ u → '*' ∉ v →
      (fileMarkMatches ⟨u ++ '*' :: '*' :: '/' :: '*' :: (v ++ '*' :: x)⟩ ⟨s⟩ = true ↔
        ∃ m1 m2, m1 ≠ [] ∧ (∀ c ∈ m1, ¬(c = '\n')) ∧ m2 ≠ [] ∧ (∀ c ∈ m2, ¬(c = '/')) ∧
          s = u ++ m1 ++ v ++ m2 ++ x)) := by
  refine ⟨?_, ?_, ?_⟩
  · intro u w s hu hno
    show rmatch (lexRegex (translatePattern (u ++ '*' :: w))) s = true ↔ _
    rw [translatePattern_star_literal_suffix u w hu hno, lexRegex_quoteMeta_append,
      lexRegex_nonSlashTok, lexRegex_quoteMeta, rmatch_single_star]
  · intro u v s hu hv
    show rmatch (lexRegex (translatePattern (u ++ '*' :: '*' :: '/' :: '*' :: v))) s = true ↔ _
    rw [translatePattern_multi u v hu hv, lexRegex_quoteMeta_append,
      lexRegex_anyTok, lexRegex_quoteMeta, rmatch_multi_star]
  · intro u v x s hu hv
    show rmatch
      (lexRegex (translatePattern (u ++ '*' :: '*' :: '/' :: '*' :: (v ++ '*' :: x)))) s
        = true ↔ _
    rw [translatePattern_multi_then_star u v x hu hv, lexRegex_quoteMeta_append,
      lexRegex_anyTok, lexRegex_quoteMeta_append, lexRegex_nonSlashTok, lexRegex_quoteMeta,
      rmatch_multi_then_single]

/-- Witness for C4 (amended): the pattern `**` matches `a*` (its second `*`
is literal), `a/**/*` matches `a/b`, and `**/**` matches `ab` (the second
star of its tail is the first remaining `*`, its third is literal — here
matched against the empty tail split `a`/`b`). -/
theorem fileMarkMatches_wildcards_first_occurrence_witness :
    fileMarkMatches ⟨[] ++ '*' :: ['*']⟩ ⟨['a', '*']⟩ = true ∧
    fileMarkMatches ⟨['a', '/'] ++ '*' :: '*' :: '/' :: '*' :: []⟩ ⟨['a', '/', 'b']⟩ = true ∧
    fileMarkMatches ⟨[] ++ '*' :: '*' :: '/' :: '*' :: ([] ++ '*' :: [])⟩ ⟨['a', 'b']⟩
      = true := by
  refine ⟨?_, ?_, ?_⟩
  · exact (fileMarkMatches_wildcards_first_occurrence.1 [] ['*'] ['a', '*'] (by decide)
      (by decide)).mpr ⟨['a'], by decide, by decide, by decide⟩
  · exact (fileMarkMatches_wildcards_first_occurrence.2.1 ['a', '/'] [] ['a', '/', 'b']
      (by decide) (by decide)).mpr ⟨['b'], by decide, by decide, by decide⟩
  · exact (fileMarkMatches_wildcards_first_occurrence.2.2 [] [] [] ['a', 'b'] (by decide)
      (by decide)).mpr ⟨['a'], ['b'], by decide, by decide, by decide, by decide, by decide⟩

/-! ## Claim C8: the mark directive parser -/

theorem splitFirst_eq_none_iff (c : Char) (s : List Char) :
    splitFirst c s = none ↔ c ∉ s := by
  induction s with
  | nil => simp [splitFirst]
  | cons x xs ih =>
    by_cases hx : x = c
    · subst hx
      simp [splitFirst]
    · have hcx : ¬(c = x) := fun h => hx h.symm
      rw [List.mem_cons]
      simp [splitFirst, hx, ih, Option.map_eq_none', hcx]

/-- C8 counterexample: the mark `":a=b"` splits into an empty path-pattern
part and `a=b`; the claim requires the parse to reject a split with an empty
(trivial) part, but the code only checks that each separator is present and
accepts the empty part. -/
theorem parseFileMark_empty_part_accepted :
    parseFileMark ":a=b" = .ok ("", "a", "b") := rfl

/-- C8 (amended): the parse splits on the first `:` and the rest on the first
`=`, failing with the malformed-mark-syntax error iff either separator is
absent (Go's `SplitN(…, 2)` then yields fewer than two parts); empty parts
are accepted, and the key and value are passed through verbatim with no
semantic validation at parse time. -/
theorem parseFileMark_spec :
    (∀ (c : Char) (s : List Char), splitFirst c s = none ↔ c ∉ s) ∧
    (∀ mark : String,
      parseFileMark mark = .error (.malformedMarkSyntax mark) ↔
        splitFirst ':' mark.data = none ∨
        ∃ p r, splitFirst ':' mark.data = some (p, r) ∧ splitFirst '=' r = none) ∧
    (∀ (mark : String) (p r k v : List Char), splitFirst ':' mark.data = some (p, r) →
      splitFirst '=' r = some (k, v) → parseFileMark mark = .ok (⟨p⟩, ⟨k⟩, ⟨v⟩)) := by
  refine ⟨splitFirst_eq_none_iff, ?_, ?_⟩
  · intro mark
    rcases h1 : splitFirst ':' mark.data with _ | ⟨p, r⟩
    · simp [parseFileMark, h1]
    · rcases h2 : splitFirst '=' r with _ | ⟨k, v⟩
      · simp only [parseFileMark, h1, h2, true_iff]
        exact .inr ⟨p, r, rfl, h2⟩
      · simp only [parseFileMark, h1, h2]
        constructor
        · intro h
          exact absurd h (by simp)
        · rintro (hn | ⟨p', r', hpr, hr⟩)
          · exact absurd hn (by simp)
          · exfalso
            injection hpr with hpr2
            have h4 : r = r' := congrArg Prod.snd hpr2
            rw [← h4, h2] at hr
            exact absurd hr (by simp)
  · intro mark p r k v h1 h2
    simp [parseFileMark, h1, h2]

/-- Witness for C8 (amended) at the concrete marks `"a.yml:path=b.yml"`
(both separators present, parse succeeds verbatim) and `"a.yml"` (no `:`,
parse fails). -/
theorem parseFileMark_spec_witness :
    parseFileMark "a.yml:path=b.yml" = .ok ("a.yml", "path", "b.yml") ∧
    (parseFileMark "a.yml" = .error (.malformedMarkSyntax "a.yml") ↔
      splitFirst ':' "a.yml".data = none ∨
      ∃ p r, splitFirst ':' "a.yml".data = some (p, r) ∧ splitFirst '=' r = none) :=
  ⟨parseFileMark_spec.2.2 "a.yml:path=b.yml" "a.yml".data "path=b.yml".data
      "path".data "b.yml".data (by decide) (by decide),
    parseFileMark_spec.2.1 "a.yml"⟩

/-! ## Claim C9: the output format selector -/

/-- C9 (confirmed): with an output directory configured, `Output` delegates to
the directory writer for every token, recognized or not; otherwise `yaml`,
`json` and `pos` select their printers and any other token fails with the
unknown-output-type error before any serialization. -/
theorem output_selector_spec :
    (∀ outputDir outputType : String, 0 < outputDir.length →
      Output outputDir outputType false = .writeDirectory outputDir) ∧
    Output "" "yaml" false = .print .default ∧
    Output "" "json" false = .print .json ∧
    Output "" "pos" false = .print .pos ∧
    (∀ tok : String, tok ∉ (["yaml", "json", "pos"] : List String) →
      Output "" tok false = .unknownOutputType tok) := by
  refine ⟨?_, by decide, by decide, by decide, ?_⟩
  · intro outputDir outputType h
    simp [Output, h]
  · intro tok htok
    simp only [List.mem_cons, List.not_mem_nil, or_false] at htok
    push_neg at htok
    obtain ⟨h1, h2, h3⟩ := htok
    simp [Output, h1, h2, h3]

/-- Witness for C9 at the unrecognized token `xml`: with a directory it is
ignored, without one it fails. -/
theorem output_selector_spec_witness :
    (0 < ("out" : String).length ∧ Output "out" "xml" false = .writeDirectory "out") ∧
    ("xml" ∉ (["yaml", "json", "pos"] : List String) ∧
      Output "" "xml" false = .unknownOutputType "xml") :=
  ⟨⟨by decide, output_selector_spec.1 "out" "xml" (by decide)⟩,
    ⟨by decide, output_selector_spec.2.2.2.2 "xml" (by decide)⟩⟩

/-! ## Lemmas about the directive scan -/

theorem scanLoop_no_match (mark pat key val : String) :
    ∀ (rest done : List (Option Nat)) (arena : List File) (excl : List Nat) (matched : Bool),
      (∀ slot ∈ rest, liveNoMatch arena pat slot) →
      scanLoop mark pat key val rest done arena excl matched =
        .ok ⟨arena, done ++ rest, excl⟩ matched := by
  intro rest
  induction rest with
  | nil =>
    intro done arena excl matched _
    simp [scanLoop]
  | cons slot rest' ih =>
    intro done arena excl matched h
    obtain ⟨fi, f, rfl, hf, hnm⟩ := h slot (List.mem_cons_self slot rest')
    simp only [scanLoop, hf, hnm, Bool.false_eq_true, if_false]
    rw [ih (done ++ [some fi]) arena excl matched
      (fun s hs => h s (List.mem_cons_of_mem _ hs))]
    simp

theorem runMarks_append (pre rest : List String) :
    ∀ st, runMarks st (pre ++ rest) =
      match runMarks st pre with
      | .ok st' => runMarks st' rest
      | .err st' e => .err st' e
      | .panicked st' => .panicked st' := by
  induction pre with
  | nil => intro st; rfl
  | cons m pre' ih =>
    intro st
    simp only [List.cons_append, runMarks]
    rcases h : applyOneMark st m with st' | ⟨st', e⟩ | st'
    · exact ih st'
    · rfl
    · rfl

/-! ## Claim C3: unmatched patterns fail fast -/

/-- C3 counterexample: after `a.yml:exclude=true` succeeds and tombstones the
first slot, the later mark `missing.yml:path=x.yml` matches zero files at its
evaluation time, yet the operation does not fail with the unmatched-pattern
error: the scan dereferences the `nil` slot and panics before the
zero-match check is ever reached. -/
theorem unmatched_after_exclude_panics :
    applyFileMarks
        [⟨"a.yml", "a.yml", .unknown, false, true⟩, ⟨"b.yml", "b.yml", .unknown, false, true⟩]
        ["a.yml:exclude=true", "missing.yml:path=x.yml"] =
      .panicked ⟨[⟨"a.yml", "a.yml", .unknown, false, true⟩,
        ⟨"b.yml", "b.yml", .unknown, false, true⟩], [none, some 1], []⟩ := by
  decide

/-- C3 (amended): provided every slot of the collection is still live at its
evaluation time (no earlier `exclude=true` has left a tombstone — a
tombstoned slot instead crashes the scan with the nil dereference of claim
C2 before the zero-match check), a well-formed mark whose pattern matches
zero files — after any prefix `pre` of successful directives — makes the
whole operation fail with the unmatched-pattern error naming that mark,
wherever it sits in the list; the returned state is exactly the state after
`pre`, so mutations of earlier directives persist and no directive after the
failing one (`post` is arbitrary) is applied. -/
theorem unmatched_pattern_fail_fast (fs : List File) (pre : List String) (m : String)
    (post : List String) (st : MarkState) (pat key val : String)
    (hpre : runMarks (initState fs) pre = .ok st)
    (hparse : parseFileMark m = .ok (pat, key, val))
    (hzero : ∀ slot ∈ st.slots, liveNoMatch st.arena pat slot) :
    applyFileMarks fs (pre ++ m :: post) = .err st (.unmatchedMarkPattern m) := by
  have hone : applyOneMark st m = .err st (.unmatchedMarkPattern m) := by
    have hs := scanLoop_no_match m pat key val st.slots [] st.arena st.excl false hzero
    simp only [applyOneMark, hparse, hs, List.nil_append, Bool.false_eq_true, if_false]
  unfold applyFileMarks
  rw [runMarks_append, hpre]
  simp only [runMarks, hone]

/-- Witness for C3: one file `a.yml`, one mark with the unmatched pattern
`missing.yml`, applied after an empty prefix. -/
theorem unmatched_pattern_fail_fast_witness :
    applyFileMarks [⟨"a.yml", "a.yml", .unknown, false, true⟩] ["missing.yml:path=x.yml"] =
      .err ⟨[⟨"a.yml", "a.yml", .unknown, false, true⟩], [some 0], []⟩
        (.unmatchedMarkPattern "missing.yml:path=x.yml") := by
  have h := unmatched_pattern_fail_fast [⟨"a.yml", "a.yml", .unknown, false, true⟩] []
    "missing.yml:path=x.yml" [] (initState [⟨"a.yml", "a.yml", .unknown, false, true⟩])
    "missing.yml" "path" "x.yml" rfl rfl ?_
  · exact h
  · intro slot hs
    have hs' : slot = some 0 := by
      simpa [initState, List.range_succ] using hs
    subst hs'
    exact ⟨0, ⟨"a.yml", "a.yml", .unknown, false, true⟩, rfl, rfl, by decide⟩

/-! ## Claim C2: scanning a cleared slot -/

/-- C2 evaluation at the failing input: after `a.yml:exclude=true` clears the
first slot, evaluating the later directive `b.yml:path=c.yml` calls the
matcher on the `nil` slot and dereferences it — the run panics instead of
completing crash-free, with the tombstoned slot still in the slice. -/
theorem exclude_then_scan_panics :
    applyFileMarks
        [⟨"a.yml", "a.yml", .unknown, false, true⟩, ⟨"b.yml", "b.yml", .unknown, false, true⟩]
        ["a.yml:exclude=true", "b.yml:path=c.yml"] =
      .panicked ⟨[⟨"a.yml", "a.yml", .unknown, false, true⟩,
        ⟨"b.yml", "b.yml", .unknown, false, true⟩], [none, some 1], []⟩ := by
  decide

/-! ## Pointwise arena relations through the applier -/

theorem pointwiseRel_refl (P : File → File → Prop) (h : ∀ f, P f f) (a : List File) :
    pointwiseRel P a a := fun _ f' hf => ⟨f', hf, h f'⟩

theorem pointwiseRel_trans (P : File → File → Prop)
    (htrans : ∀ a b c, P a b → P b c → P a c) {x y z : List File}
    (hxy : pointwiseRel P x y) (hyz : pointwiseRel P y z) : pointwiseRel P x z := by
  intro fi f' hf
  obtain ⟨g, hg, hgz⟩ := hyz fi f' hf
  obtain ⟨f, hfx, hfg⟩ := hxy fi g hg
  exact ⟨f, hfx, htrans _ _ _ hfg hgz⟩

theorem pointwiseRel_set (P : File → File → Prop) (hrefl : ∀ f, P f f) (a : List File)
    (fi : Nat) (f g : File) (hf : a[fi]? = some f) (hP : P f g) :
    pointwiseRel P a (a.set fi g) := by
  intro j f' hj
  rw [List.getElem?_set] at hj
  by_cases hij : fi = j
  · subst hij
    have hlen : fi < a.length := (List.getElem?_eq_some.mp hf).1
    rw [if_pos rfl, if_pos hlen] at hj
    injection hj with hj
    exact ⟨f, hf, hj ▸ hP⟩
  · rw [if_neg hij] at hj
    exact ⟨f', hj, hrefl f'⟩

theorem scanLoop_pointwiseRel (P : File → File → Prop)
    (hrefl : ∀ f, P f f) (htrans : ∀ a b c, P a b → P b c → P a c)
    (hpath : ∀ (f : File) (v : String), P f (f.markRelativePath v))
    (htype : ∀ (f : File) (v : String) (tb : ContentType × Bool),
      typePair v = some tb → P f ((f.markType tb.1).markTemplate tb.2))
    (hout : ∀ (f : File) (b : Bool), P f (f.markForOutput b))
    (mark pat key val : String) :
    ∀ (rest done : List (Option Nat)) (arena : List File) (excl : List Nat) (matched : Bool),
      pointwiseRel P arena
        ((scanLoop mark pat key val rest done arena excl matched).state).arena := by
  intro rest
  induction rest with
  | nil =>
    intro done arena excl matched
    exact pointwiseRel_refl P hrefl arena
  | cons slot rest' ih =>
    intro done arena excl matched
    rcases slot with _ | fi
    · exact pointwiseRel_refl P hrefl arena
    · rcases hf : arena[fi]? with _ | f
      · simp only [scanLoop, hf]
        exact pointwiseRel_refl P hrefl arena
      · simp only [scanLoop, hf]
        by_cases hm : fileMarkMatches pat f.originalRelativePath = true
        · rw [if_pos hm]
          by_cases h1 : key = "path"
          · rw [if_pos h1]
            exact pointwiseRel_trans P htrans
              (pointwiseRel_set P hrefl arena fi f _ hf (hpath f val)) (ih _ _ _ _)
          · rw [if_neg h1]
            by_cases h2 : key = "exclude"
            · rw [if_pos h2]
              by_cases hv : val = "true"
              · rw [if_pos hv]
                exact ih _ _ _ _
              · rw [if_neg hv]
                exact pointwiseRel_refl P hrefl arena
            · rw [if_neg h2]
              by_cases h3 : key = "type"
              · rw [if_pos h3]
                rcases htp : typePair val with _ | tb
                · exact pointwiseRel_refl P hrefl arena
                · exact pointwiseRel_trans P htrans
                    (pointwiseRel_set P hrefl arena fi f _ hf (htype f val tb htp))
                    (ih _ _ _ _)
              · rw [if_neg h3]
                by_cases h4 : key = "for-output"
                · rw [if_pos h4]
                  by_cases hv : val = "true"
                  · rw [if_pos hv]
                    exact pointwiseRel_trans P htrans
                      (pointwiseRel_set P hrefl arena fi f _ hf (hout f true)) (ih _ _ _ _)
                  · rw [if_neg hv]
                    exact pointwiseRel_refl P hrefl arena
                · rw [if_neg h4]
                  by_cases h5 : key = "exclusive-for-output"
                  · rw [if_pos h5]
                    by_cases hv : val = "true"
                    · rw [if_pos hv]
                      exact ih _ _ _ _
                    · rw [if_neg hv]
                      exact pointwiseRel_refl P hrefl arena
                  · rw [if_neg h5]
                    exact pointwiseRel_refl P hrefl arena
        · rw [if_neg hm]
          exact ih _ _ _ _

theorem applyOneMark_pointwiseRel (P : File → File → Prop)
    (hrefl : ∀ f, P f f) (htrans : ∀ a b c, P a b → P b c → P a c)
    (hpath : ∀ (f : File) (v : String), P f (f.markRelativePath v))
    (htype : ∀ (f : File) (v : String) (tb : ContentType × Bool),
      typePair v = some tb → P f ((f.markType tb.1).markTemplate tb.2))
    (hout : ∀ (f : File) (b : Bool), P f (f.markForOutput b))
    (st : MarkState) (mark : String) :
    pointwiseRel P st.arena (((applyOneMark st mark).state).arena) := by
  rcases hp : parseFileMark mark with e | ⟨pat, key, val⟩
  · simp only [applyOneMark, hp, MarkOut.state]
    exact pointwiseRel_refl P hrefl st.arena
  · have h := scanLoop_pointwiseRel P hrefl htrans hpath htype hout mark pat key val
      st.slots [] st.arena st.excl false
    rcases hs : scanLoop mark pat key val st.slots [] st.arena st.excl false with
      ⟨st', matched⟩ | ⟨st', e⟩ | st'
    · rw [hs] at h
      rcases matched with _ | _ <;>
        simpa [applyOneMark, hp, hs, ScanOut.state, MarkOut.state] using h
    · rw [hs] at h
      simpa [applyOneMark, hp, hs, ScanOut.state, MarkOut.state] using h
    · rw [hs] at h
      simpa [applyOneMark, hp, hs, ScanOut.state, MarkOut.state] using h

theorem runMarks_pointwiseRel (P : File → File → Prop)
    (hrefl : ∀ f, P f f) (htrans : ∀ a b c, P a b → P b c → P a c)
    (hpath : ∀ (f : File) (v : String), P f (f.markRelativePath v))
    (htype : ∀ (f : File) (v : String) (tb : ContentType × Bool),
      typePair v = some tb → P f ((f.markType tb.1).markTemplate tb.2))
    (hout : ∀ (f : File) (b : Bool), P f (f.markForOutput b)) :
    ∀ (marks : List String) (st : MarkState),
      pointwiseRel P st.arena (((runMarks st marks).state).arena) := by
  intro marks
  induction marks with
  | nil => intro st; exact pointwiseRel_refl P hrefl st.arena
  | cons m ms ih =>
    intro st
    have h1 := applyOneMark_pointwiseRel P hrefl htrans hpath htype hout st m
    simp only [runMarks]
    rcases ho : applyOneMark st m with st' | ⟨st', e⟩ | st'
    · rw [ho] at h1
      exact pointwiseRel_trans P htrans (by simpa [MarkOut.state] using h1) (ih st')
    · rw [ho] at h1
      simpa [MarkOut.state] using h1
    · rw [ho] at h1
      simpa [MarkOut.state] using h1

theorem setForOutputAll_pointwiseRel (P : File → File → Prop)
    (hrefl : ∀ f, P f f) (htrans : ∀ a b c, P a b → P b c → P a c)
    (hout : ∀ (f : File) (b : Bool), P f (f.markForOutput b)) (b : Bool) :
    ∀ (idxs : List Nat) (arena : List File),
      pointwiseRel P arena (setForOutputAll arena idxs b) := by
  intro idxs
  induction idxs with
  | nil => intro arena; exact pointwiseRel_refl P hrefl arena
  | cons i rest ih =>
    intro arena
    simp only [setForOutputAll, List.foldl_cons]
    rcases hf : arena[i]? with _ | f
    · simp only [hf]
      exact ih arena
    · simp only [hf]
      exact pointwiseRel_trans P htrans
        (pointwiseRel_set P hrefl arena i f _ hf (hout f b)) (ih _)

theorem applyFileMarks_pointwiseRel (P : File → File → Prop)
    (hrefl : ∀ f, P f f) (htrans : ∀ a b c, P a b → P b c → P a c)
    (hpath : ∀ (f : File) (v : String), P f (f.markRelativePath v))
    (htype : ∀ (f : File) (v : String) (tb : ContentType × Bool),
      typePair v = some tb → P f ((f.markType tb.1).markTemplate tb.2))
    (hout : ∀ (f : File) (b : Bool), P f (f.markForOutput b))
    (fs : List File) (marks : List String) :
    pointwiseRel P fs ((applyFileMarks fs marks).arenaOf) := by
  have h := runMarks_pointwiseRel P hrefl htrans hpath htype hout marks (initState fs)
  unfold applyFileMarks
  rcases hr : runMarks (initState fs) marks with st | ⟨st, e⟩ | st
  · rw [hr] at h
    simp only [MarkOut.state, initState] at h
    by_cases hex : 0 < st.excl.length
    · simp only [ApplyResult.arenaOf, hex, if_true]
      exact pointwiseRel_trans P htrans h
        (pointwiseRel_trans P htrans
          (setForOutputAll_pointwiseRel P hrefl htrans hout false _ _)
          (setForOutputAll_pointwiseRel P hrefl htrans hout true _ _))
    · simp only [ApplyResult.arenaOf, hex, if_false]
      exact h
  · rw [hr] at h
    simpa [MarkOut.state, initState, ApplyResult.arenaOf] using h
  · rw [hr] at h
    simpa [MarkOut.state, initState, ApplyResult.arenaOf] using h

/-! ## Arena length preservation -/

theorem scanLoop_arena_length (mark pat key val : String) :
    ∀ (rest done : List (Option Nat)) (arena : List File) (excl : List Nat) (matched : Bool),
      ((((scanLoop mark pat key val rest done arena excl matched).state).arena).length)
        = arena.length := by
  intro rest
  induction rest with
  | nil =>
    intro done arena excl matched
    rfl
  | cons slot rest' ih =>
    intro done arena excl matched
    rcases slot with _ | fi
    · rfl
    · rcases hf : arena[fi]? with _ | f
      · simp only [scanLoop, hf, ScanOut.state]
      · simp only [scanLoop, hf]
        by_cases hm : fileMarkMatches pat f.originalRelativePath = true
        · rw [if_pos hm]
          by_cases h1 : key = "path"
          · rw [if_pos h1, ih]
            exact List.length_set ..
          · rw [if_neg h1]
            by_cases h2 : key = "exclude"
            · rw [if_pos h2]
              by_cases hv : val = "true"
              · rw [if_pos hv, ih]
              · rw [if_neg hv]
                rfl
            · rw [if_neg h2]
              by_cases h3 : key = "type"
              · rw [if_pos h3]
                rcases htp : typePair val with _ | tb
                · rfl
                · rw [ih]
                  exact List.length_set ..
              · rw [if_neg h3]
                by_cases h4 : key = "for-output"
                · rw [if_pos h4]
                  by_cases hv : val = "true"
                  · rw [if_pos hv, ih]
                    exact List.length_set ..
                  · rw [if_neg hv]
                    rfl
                · rw [if_neg h4]
                  by_cases h5 : key = "exclusive-for-output"
                  · rw [if_pos h5]
                    by_cases hv : val = "true"
                    · rw [if_pos hv, ih]
                    · rw [if_neg hv]
                      rfl
                  · rw [if_neg h5]
                    rfl
        · rw [if_neg hm, ih]

theorem applyOneMark_arena_length (st : MarkState) (mark : String) :
    ((((applyOneMark st mark).state).arena).length) = st.arena.length := by
  rcases hp : parseFileMark mark with e | ⟨pat, key, val⟩
  · simp only [applyOneMark, hp, MarkOut.state]
  · have h := scanLoop_arena_length mark pat key val st.slots [] st.arena st.excl false
    rcases hs : scanLoop mark pat key val st.slots [] st.arena st.excl false with
      ⟨st', matched⟩ | ⟨st', e⟩ | st'
    · rw [hs] at h
      rcases matched with _ | _ <;>
        simpa [applyOneMark, hp, hs, ScanOut.state, MarkOut.state] using h
    · rw [hs] at h
      simpa [applyOneMark, hp, hs, ScanOut.state, MarkOut.state] using h
    · rw [hs] at h
      simpa [applyOneMark, hp, hs, ScanOut.state, MarkOut.state] using h

theorem runMarks_arena_length :
    ∀ (marks : List String) (st : MarkState),
      ((((runMarks st marks).state).arena).length) = st.arena.length := by
  intro marks
  induction marks with
  | nil => intro st; rfl
  | cons m ms ih =>
    intro st
    have h1 := applyOneMark_arena_length st m
    simp only [runMarks]
    rcases ho : applyOneMark st m with st' | ⟨st', e⟩ | st'
    · rw [ho] at h1
      simp only [MarkOut.state] at h1
      rw [ih st', h1]
    · rw [ho] at h1
      simpa [MarkOut.state] using h1
    · rw [ho] at h1
      simpa [MarkOut.state] using h1

theorem setForOutputAll_length (b : Bool) :
    ∀ (idxs : List Nat) (arena : List File),
      (setForOutputAll arena idxs b).length = arena.length := by
  intro idxs
  induction idxs with
  | nil => intro arena; rfl
  | cons i rest ih =>
    intro arena
    simp only [setForOutputAll, List.foldl_cons]
    rcases hf : arena[i]? with _ | f
    · simp only [hf]
      exact ih arena
    · simp only [hf]
      rw [show List.foldl _ (arena.set i (f.markForOutput b)) rest =
        setForOutputAll (arena.set i (f.markForOutput b)) rest b from rfl]
      rw [ih]
      exact List.length_set ..

theorem applyFileMarks_arena_length (fs : List File) (marks : List String) :
    (((applyFileMarks fs marks).arenaOf).length) = fs.length := by
  have h := runMarks_arena_length marks (initState fs)
  unfold applyFileMarks
  rcases hr : runMarks (initState fs) marks with st | ⟨st, e⟩ | st
  · rw [hr] at h
    simp only [MarkOut.state, initState] at h
    by_cases hex : 0 < st.excl.length
    · simp only [ApplyResult.arenaOf, hex, if_true]
      rw [setForOutputAll_length, setForOutputAll_length]
      exact h
    · simp only [ApplyResult.arenaOf, hex, if_false]
      exact h
  · rw [hr] at h
    simpa [MarkOut.state, initState, ApplyResult.arenaOf] using h
  · rw [hr] at h
    simpa [MarkOut.state, initState, ApplyResult.arenaOf] using h

/-! ## Claim C7: matching reads the original relative path -/

theorem pointwiseRel_orig_getElem {x y : List File}
    (hrel : pointwiseRel (fun f f' => f'.originalRelativePath = f.originalRelativePath) x y)
    (hlen : y.length = x.length) (fi : Nat) :
    (y[fi]?).map File.originalRelativePath = (x[fi]?).map File.originalRelativePath := by
  rcases hy : y[fi]? with _ | f'
  · rw [List.getElem?_eq_none_iff] at hy
    rw [List.getElem?_eq_none (by omega : x.length ≤ fi)]
  · obtain ⟨f, hx, he⟩ := hrel fi f' hy
    rw [hx]
    simp [he]

/-- C7 (confirmed): no directive changes a file's `originalRelativePath` —
the original paths of the whole arena are unchanged by any run, whatever its
outcome — and the matcher reads only that immutable field, so applying a
`path` directive leaves the outcome of `fileMarkMatches` for every file and
every pattern unchanged. -/
theorem matching_reads_original_path :
    (∀ (fs : List File) (marks : List String),
      ((applyFileMarks fs marks).arenaOf).map File.originalRelativePath =
        fs.map File.originalRelativePath) ∧
    (∀ (st : MarkState) (mark pat val : String),
      parseFileMark mark = .ok (pat, "path", val) →
      ∀ (q : String) (fi : Nat),
        ((((applyOneMark st mark).state).arena[fi]?).map
            (fun f => fileMarkMatches q f.originalRelativePath)) =
          ((st.arena[fi]?).map (fun f => fileMarkMatches q f.originalRelativePath))) := by
  have hrefl : ∀ f : File, f.originalRelativePath = f.originalRelativePath := fun _ => rfl
  have htrans : ∀ a b c : File, b.originalRelativePath = a.originalRelativePath →
      c.originalRelativePath = b.originalRelativePath →
      c.originalRelativePath = a.originalRelativePath :=
    fun _ _ _ hab hbc => hbc.trans hab
  constructor
  · intro fs marks
    apply List.ext_getElem?
    intro i
    rw [List.getElem?_map, List.getElem?_map]
    exact pointwiseRel_orig_getElem
      (applyFileMarks_pointwiseRel _ hrefl htrans (fun _ _ => rfl) (fun _ _ _ _ => rfl)
        (fun _ _ => rfl) fs marks)
      (applyFileMarks_arena_length fs marks) i
  · intro st mark pat val _ q fi
    have h := pointwiseRel_orig_getElem
      (applyOneMark_pointwiseRel _ hrefl htrans (fun _ _ => rfl) (fun _ _ _ _ => rfl)
        (fun _ _ => rfl) st mark)
      (applyOneMark_arena_length st mark) fi
    have h2 := congrArg (Option.map (fileMarkMatches q)) h
    simpa [Option.map_map, Function.comp_def] using h2

/-- Witness for C7: a concrete `path` directive rewriting `a.yml` to `b.yml`
leaves the matching of every pattern against slot 0 unchanged. -/
theorem matching_reads_original_path_witness :
    parseFileMark "a.yml:path=b.yml" = .ok ("a.yml", "path", "b.yml") ∧
    ((((applyOneMark (initState [⟨"a.yml", "a.yml", .unknown, false, true⟩])
          "a.yml:path=b.yml").state).arena[0]?).map
        (fun f => fileMarkMatches "a.yml" f.originalRelativePath)) =
      (((initState [⟨"a.yml", "a.yml", .unknown, false, true⟩]).arena[0]?).map
        (fun f => fileMarkMatches "a.yml" f.originalRelativePath)) :=
  ⟨rfl, matching_reads_original_path.2
    (initState [⟨"a.yml", "a.yml", .unknown, false, true⟩]) "a.yml:path=b.yml"
    "a.yml" "b.yml" rfl "a.yml" 0⟩

/-! ## Claim C6: the six type pairs -/

theorem typePair_mem_sixPairs {v : String} {tb : ContentType × Bool}
    (h : typePair v = some tb) : tb ∈ sixPairs := by
  unfold typePair at h
  split_ifs at h <;> simp_all [sixPairs]

/-- C6 (confirmed): the `type` directive's six values map to exactly the six
fixed `(contentType, templateEnabled)` pairs, any other value is rejected
with the invalid-mark-value error at a matched file, and directive
processing can only ever leave a file's pair unchanged or set it to one of
the six pairs — no other combination is reachable. -/
theorem type_directive_pairs :
    (typePair "yaml-template" = some (.yaml, true) ∧
     typePair "yaml-plain" = some (.yaml, false) ∧
     typePair "text-template" = some (.text, true) ∧
     typePair "text-plain" = some (.text, false) ∧
     typePair "starlark" = some (.starlark, false) ∧
     typePair "data" = some (.unknown, false)) ∧
    (∀ v : String, typePair v = none ↔ v ∉ sixTypeValues) ∧
    (∀ (mark pat v : String) (fi : Nat) (rest done : List (Option Nat)) (arena : List File)
      (excl : List Nat) (matched : Bool) (f : File),
      typePair v = none → arena[fi]? = some f →
      fileMarkMatches pat f.originalRelativePath = true →
      scanLoop mark pat "type" v (some fi :: rest) done arena excl matched =
        .err ⟨arena, done ++ some fi :: rest, excl⟩ (.invalidMarkValue mark)) ∧
    (∀ (fs : List File) (marks : List String) (fi : Nat) (f : File),
      ((applyFileMarks fs marks).arenaOf)[fi]? = some f →
      ∃ f₀, fs[fi]? = some f₀ ∧
        (f.typeState = f₀.typeState ∨ f.typeState ∈ sixPairs)) := by
  refine ⟨⟨rfl, rfl, rfl, rfl, rfl, rfl⟩, ?_, ?_, ?_⟩
  · intro v
    constructor
    · intro hn hv
      simp only [sixTypeValues, List.mem_cons, List.not_mem_nil, or_false] at hv
      rcases hv with rfl | rfl | rfl | rfl | rfl | rfl <;> simp [typePair] at hn
    · intro hv
      simp only [sixTypeValues, List.mem_cons, List.not_mem_nil, or_false] at hv
      push_neg at hv
      obtain ⟨h1, h2, h3, h4, h5, h6⟩ := hv
      simp [typePair, h1, h2, h3, h4, h5, h6]
  · intro mark pat v fi rest done arena excl matched f htv hf hm
    simp only [scanLoop, hf, hm, htv, if_true]
    rw [if_neg (by decide : ¬(("type" : String) = "path")),
      if_neg (by decide : ¬(("type" : String) = "exclude"))]
  · intro fs marks fi f hf
    exact applyFileMarks_pointwiseRel
      (fun f f' => f'.typeState = f.typeState ∨ f'.typeState ∈ sixPairs)
      (fun _ => .inl rfl)
      (by
        intro a b c hab hbc
        rcases hbc with h | h
        · rw [h]
          exact hab
        · exact .inr h)
      (fun _ _ => .inl rfl)
      (by
        intro f v tb htp
        exact .inr (by simpa using typePair_mem_sixPairs htp))
      (fun _ _ => .inl rfl)
      fs marks fi f hf

/-- Witness for C6: an illegal value `bogus` is rejected at the matched file,
and a `data` directive on a yaml-template file reaches exactly the pair
`(Unknown, false)`. -/
theorem type_directive_pairs_witness :
    scanLoop "a.yml:type=bogus" "a.yml" "type" "bogus" [some 0] []
        [⟨"a.yml", "a.yml", ContentType.yaml, true, true⟩] [] false =
      .err ⟨[⟨"a.yml", "a.yml", ContentType.yaml, true, true⟩], [some 0], []⟩
        (.invalidMarkValue "a.yml:type=bogus") ∧
    (∃ f₀, ([⟨"a.yml", "a.yml", ContentType.yaml, true, true⟩] : List File)[0]? = some f₀ ∧
      ((⟨"a.yml", "a.yml", ContentType.unknown, false, true⟩ : File).typeState = f₀.typeState ∨
        (⟨"a.yml", "a.yml", ContentType.unknown, false, true⟩ : File).typeState ∈ sixPairs)) := by
  constructor
  · have h := type_directive_pairs.2.2.1 "a.yml:type=bogus" "a.yml" "bogus" 0 [] []
      [⟨"a.yml", "a.yml", ContentType.yaml, true, true⟩] [] false
      ⟨"a.yml", "a.yml", ContentType.yaml, true, true⟩ (by decide) rfl (by decide)
    simpa using h
  · exact type_directive_pairs.2.2.2 [⟨"a.yml", "a.yml", ContentType.yaml, true, true⟩]
      ["a.yml:type=data"] 0 ⟨"a.yml", "a.yml", ContentType.unknown, false, true⟩ (by decide)

/-! ## Well-formedness of the state through the applier -/

theorem scanLoop_StateWF (mark pat key val : String) :
    ∀ (rest done : List (Option Nat)) (arena : List File) (excl : List Nat) (matched : Bool),
      (∀ fi, some fi ∈ done ++ rest → fi < arena.length) →
      (∀ fi ∈ excl, fi < arena.length) →
      StateWF ((scanLoop mark pat key val rest done arena excl matched).state) := by
  intro rest
  induction rest with
  | nil =>
    intro done arena excl matched hs he
    refine ⟨?_, he⟩
    intro fi hmem
    exact hs fi (by simpa using hmem)
  | cons slot rest' ih =>
    intro done arena excl matched hs he
    rcases slot with _ | fi
    · simp only [scanLoop, ScanOut.state]
      exact ⟨hs, he⟩
    · rcases hf : arena[fi]? with _ | f
      · simp only [scanLoop, hf, ScanOut.state]
        exact ⟨hs, he⟩
      · have hfl : fi < arena.length := (List.getElem?_eq_some.mp hf).1
        have hshift : ∀ fj, some fj ∈ (done ++ [some fi]) ++ rest' → fj < arena.length := by
          intro fj hmem
          apply hs fj
          rwa [List.append_assoc, List.singleton_append] at hmem
        have hdrop : ∀ fj, some fj ∈ (done ++ [(none : Option Nat)]) ++ rest' →
            fj < arena.length := by
          intro fj hmem
          rw [List.append_assoc, List.singleton_append] at hmem
          rcases List.mem_append.mp hmem with h | h
          · exact hs fj (List.mem_append.mpr (.inl h))
          · rcases List.mem_cons.mp h with h' | h'
            · cases h'
            · exact hs fj (List.mem_append.mpr (.inr (List.mem_cons_of_mem _ h')))
        simp only [scanLoop, hf]
        by_cases hm : fileMarkMatches pat f.originalRelativePath = true
        · rw [if_pos hm]
          by_cases h1 : key = "path"
          · rw [if_pos h1]
            apply ih
            · intro fj hmem
              rw [List.length_set]
              exact hshift fj hmem
            · intro fj hmem
              rw [List.length_set]
              exact he fj hmem
          · rw [if_neg h1]
            by_cases h2 : key = "exclude"
            · rw [if_pos h2]
              by_cases hv : val = "true"
              · rw [if_pos hv]
                exact ih _ _ _ _ hdrop he
              · rw [if_neg hv]
                exact ⟨hs, he⟩
            · rw [if_neg h2]
              by_cases h3 : key = "type"
              · rw [if_pos h3]
                rcases htp : typePair val with _ | tb
                · exact ⟨hs, he⟩
                · apply ih
                  · intro fj hmem
                    rw [List.length_set]
                    exact hshift fj hmem
                  · intro fj hmem
                    rw [List.length_set]
                    exact he fj hmem
              · rw [if_neg h3]
                by_cases h4 : key = "for-output"
                · rw [if_pos h4]
                  by_cases hv : val = "true"
                  · rw [if_pos hv]
                    apply ih
                    · intro fj hmem
                      rw [List.length_set]
                      exact hshift fj hmem
                    · intro fj hmem
                      rw [List.length_set]
                      exact he fj hmem
                  · rw [if_neg hv]
                    exact ⟨hs, he⟩
                · rw [if_neg h4]
                  by_cases h5 : key = "exclusive-for-output"
                  · rw [if_pos h5]
                    by_cases hv : val = "true"
                    · rw [if_pos hv]
                      apply ih
                      · exact hshift
                      · intro fj hmem
                        rcases List.mem_append.mp hmem with h | h
                        · exact he fj h
                        · rcases List.mem_cons.mp h with rfl | h'
                          · exact hfl
                          · cases h'
                    · rw [if_neg hv]
                      exact ⟨hs, he⟩
                  · rw [if_neg h5]
                    exact ⟨hs, he⟩
        · rw [if_neg hm]
          exact ih _ _ _ _ hshift he

theorem applyOneMark_StateWF (st : MarkState) (mark : String) (h : StateWF st) :
    StateWF ((applyOneMark st mark).state) := by
  rcases hp : parseFileMark mark with e | ⟨pat, key, val⟩
  · simpa [applyOneMark, hp, MarkOut.state] using h
  · have hw := scanLoop_StateWF mark pat key val st.slots [] st.arena st.excl false
      (by simpa using h.1) h.2
    rcases hs : scanLoop mark pat key val st.slots [] st.arena st.excl false with
      ⟨st', matched⟩ | ⟨st', e⟩ | st'
    · rw [hs] at hw
      rcases matched with _ | _ <;>
        simpa [applyOneMark, hp, hs, ScanOut.state, MarkOut.state] using hw
    · rw [hs] at hw
      simpa [applyOneMark, hp, hs, ScanOut.state, MarkOut.state] using hw
    · rw [hs] at hw
      simpa [applyOneMark, hp, hs, ScanOut.state, MarkOut.state] using hw

theorem runMarks_StateWF :
    ∀ (marks : List String) (st : MarkState), StateWF st →
      StateWF ((runMarks st marks).state) := by
  intro marks
  induction marks with
  | nil => intro st h; exact h
  | cons m ms ih =>
    intro st h
    have h1 := applyOneMark_StateWF st m h
    simp only [runMarks]
    rcases ho : applyOneMark st m with st' | ⟨st', e⟩ | st'
    · rw [ho] at h1
      exact ih st' (by simpa [MarkOut.state] using h1)
    · rw [ho] at h1
      simpa [MarkOut.state] using h1
    · rw [ho] at h1
      simpa [MarkOut.state] using h1

theorem initState_StateWF (fs : List File) : StateWF (initState fs) := by
  constructor
  · intro fi hmem
    simp only [initState] at hmem ⊢
    rw [List.mem_map] at hmem
    obtain ⟨j, hj, hje⟩ := hmem
    injection hje with hje
    subst hje
    exact List.mem_range.mp hj
  · intro fi hmem
    exact absurd hmem (List.not_mem_nil fi)

/-! ## The final `forOutput` folds -/

theorem setForOutputAll_cons (arena : List File) (j : Nat) (rest : List Nat) (b : Bool) :
    setForOutputAll arena (j :: rest) b =
      setForOutputAll
        (match arena[j]? with
          | some f => arena.set j (f.markForOutput b)
          | none => arena) rest b := rfl

theorem setForOutputAll_getElem?_not_mem (b : Bool) :
    ∀ (idxs : List Nat) (arena : List File) (i : Nat), i ∉ idxs →
      (setForOutputAll arena idxs b)[i]? = arena[i]? := by
  intro idxs
  induction idxs with
  | nil => intro arena i _; rfl
  | cons j rest ih =>
    intro arena i hmem
    have hji : j ≠ i := fun h => hmem (h ▸ List.mem_cons_self j rest)
    have hrest : i ∉ rest := fun h => hmem (List.mem_cons_of_mem j h)
    rw [setForOutputAll_cons]
    rcases hf : arena[j]? with _ | f
    · simp only [hf]
      exact ih arena i hrest
    · simp only [hf]
      rw [ih _ i hrest, List.getElem?_set_ne hji]

theorem setForOutputAll_getElem?_mem (b : Bool) :
    ∀ (idxs : List Nat) (arena : List File) (i : Nat), i ∈ idxs → i < arena.length →
      ∃ f, (setForOutputAll arena idxs b)[i]? = some f ∧ f.forOutput = b := by
  intro idxs
  induction idxs with
  | nil =>
    intro arena i hmem _
    exact absurd hmem (List.not_mem_nil i)
  | cons j rest ih =>
    intro arena i hmem hlen
    rw [setForOutputAll_cons]
    by_cases hr : i ∈ rest
    · rcases hf : arena[j]? with _ | f
      · simp only [hf]
        exact ih arena i hr hlen
      · simp only [hf]
        exact ih _ i hr (by rw [List.length_set]; exact hlen)
    · have hij : i = j := by
        rcases List.mem_cons.mp hmem with h | h
        · exact h
        · exact absurd h hr
      subst hij
      have hf : arena[i]? = some arena[i] := List.getElem?_eq_getElem hlen
      simp only [hf]
      rw [setForOutputAll_getElem?_not_mem b rest _ i hr]
      refine ⟨(arena[i]).markForOutput b, ?_, rfl⟩
      rw [List.getElem?_set]
      simp [hlen]

/-! ## Claim C1: the exclusivity override -/

theorem scanLoop_exclusive_arena (mark pat val : String) :
    ∀ (rest done : List (Option Nat)) (arena : List File) (excl : List Nat) (matched : Bool),
      (((scanLoop mark pat "exclusive-for-output" val rest done arena excl matched).state).arena)
        = arena := by
  intro rest
  induction rest with
  | nil =>
    intro done arena excl matched
    rfl
  | cons slot rest' ih =>
    intro done arena excl matched
    rcases slot with _ | fi
    · rfl
    · rcases hf : arena[fi]? with _ | f
      · simp only [scanLoop, hf, ScanOut.state]
      · simp only [scanLoop, hf]
        by_cases hm : fileMarkMatches pat f.originalRelativePath = true
        · rw [if_pos hm,
            if_neg (by decide : ¬(("exclusive-for-output" : String) = "path")),
            if_neg (by decide : ¬(("exclusive-for-output" : String) = "exclude")),
            if_neg (by decide : ¬(("exclusive-for-output" : String) = "type")),
            if_neg (by decide : ¬(("exclusive-for-output" : String) = "for-output")),
            if_true]
          by_cases hv : val = "true"
          · rw [if_pos hv, ih]
          · rw [if_neg hv]
            rfl
        · rw [if_neg hm, ih]

theorem applyOneMark_exclusive_arena (st : MarkState) (mark pat val : String)
    (hp : parseFileMark mark = .ok (pat, "exclusive-for-output", val)) :
    ((applyOneMark st mark).state).arena = st.arena := by
  have h := scanLoop_exclusive_arena mark pat val st.slots [] st.arena st.excl false
  rcases hs : scanLoop mark pat "exclusive-for-output" val st.slots [] st.arena st.excl false
    with ⟨st', matched⟩ | ⟨st', e⟩ | st'
  · rw [hs] at h
    rcases matched with _ | _ <;>
      simpa [applyOneMark, hp, hs, ScanOut.state, MarkOut.state] using h
  · rw [hs] at h
    simpa [applyOneMark, hp, hs, ScanOut.state, MarkOut.state] using h
  · rw [hs] at h
    simpa [applyOneMark, hp, hs, ScanOut.state, MarkOut.state] using h

/-- C1 (confirmed): when the run succeeds and the exclusivity accumulator is
non-empty, a surviving file has `forOutput = true` exactly when it is a
member of the accumulator — every other surviving file ends with
`forOutput = false`, whatever any earlier `for-output` directive set — and an
`exclusive-for-output` directive itself never touches the arena (so it sets
no `forOutput` during directive application; it only records the file). -/
theorem exclusive_for_output_override :
    (∀ (fs : List File) (marks : List String) (arena : List File)
      (survivors excl : List Nat),
      applyFileMarks fs marks = .ok arena survivors excl → excl ≠ [] →
      ∀ fi ∈ survivors, ∃ f, arena[fi]? = some f ∧ (f.forOutput = true ↔ fi ∈ excl)) ∧
    (∀ (st : MarkState) (mark pat val : String),
      parseFileMark mark = .ok (pat, "exclusive-for-output", val) →
      ((applyOneMark st mark).state).arena = st.arena) := by
  refine ⟨?_, fun st mark pat val hp => applyOneMark_exclusive_arena st mark pat val hp⟩
  intro fs marks arena survivors excl h hne fi hfi
  rcases hr : runMarks (initState fs) marks with st | ⟨st, e⟩ | st
  · have hwf : StateWF st := by
      have := runMarks_StateWF marks (initState fs) (initState_StateWF fs)
      rwa [hr] at this
    simp only [applyFileMarks, hr] at h
    by_cases hex : 0 < st.excl.length
    · simp only [hex, if_true] at h
      injection h with hA hS hE
      subst hA
      subst hS
      subst hE
      have hsome : some fi ∈ st.slots := by
        obtain ⟨o, ho, hid⟩ := List.mem_filterMap.mp hfi
        have ho' : o = some fi := by simpa using hid
        rwa [ho'] at ho
      have hlt : fi < st.arena.length := hwf.1 fi hsome
      by_cases hmem : fi ∈ st.excl
      · obtain ⟨f, hgf, hb⟩ := setForOutputAll_getElem?_mem true st.excl
          (setForOutputAll st.arena (clearNils st.slots) false) fi hmem
          (by rw [setForOutputAll_length]; exact hlt)
        exact ⟨f, hgf, ⟨fun _ => hmem, fun _ => hb⟩⟩
      · rw [setForOutputAll_getElem?_not_mem true st.excl _ fi hmem]
        obtain ⟨f, hgf, hb⟩ := setForOutputAll_getElem?_mem false (clearNils st.slots)
          st.arena fi hfi hlt
        refine ⟨f, hgf, ?_, ?_⟩
        · intro hfo
          exact absurd (hb.symm.trans hfo) (by decide)
        · intro hfo
          exact absurd hfo hmem
    · simp only [hex, if_false] at h
      injection h with hA hS hE
      subst hE
      exact absurd (List.length_eq_zero.mp (by omega : st.excl.length = 0)) hne
  · simp only [applyFileMarks, hr] at h
    cases h
  · simp only [applyFileMarks, hr] at h
    cases h

/-- Witness for C1: three files, one `exclusive-for-output=true` directive on
`config.yml`; the surviving slot 0 (`a.yml`) ends with `forOutput = false`
because it is not in the accumulator. -/
theorem exclusive_for_output_override_witness :
    ∃ f, (setForOutputAll
        (setForOutputAll
          [⟨"a.yml", "a.yml", .unknown, false, true⟩,
           ⟨"config.yml", "config.yml", .unknown, false, true⟩,
           ⟨"b.yml", "b.yml", .unknown, false, true⟩] [0, 1, 2] false) [1] true)[0]? =
      some f ∧ (f.forOutput = true ↔ (0 : Nat) ∈ ([1] : List Nat)) := by
  have h := exclusive_for_output_override.1
    [⟨"a.yml", "a.yml", .unknown, false, true⟩,
     ⟨"config.yml", "config.yml", .unknown, false, true⟩,
     ⟨"b.yml", "b.yml", .unknown, false, true⟩]
    ["config.yml:exclusive-for-output=true"]
    (setForOutputAll
      (setForOutputAll
        [⟨"a.yml", "a.yml", .unknown, false, true⟩,
         ⟨"config.yml", "config.yml", .unknown, false, true⟩,
         ⟨"b.yml", "b.yml", .unknown, false, true⟩] [0, 1, 2] false) [1] true)
    [0, 1, 2] [1] (by decide) (by decide) 0 (by decide)
  exact h

/-! ## Claim C10: key/value validation happens only at matching files -/

theorem scanLoop_bad_kv_at_match (mark pat key val : String) (hbad : badKV key val)
    (fi : Nat) (rest done : List (Option Nat)) (arena : List File) (excl : List Nat)
    (matched : Bool) (f : File) (hf : arena[fi]? = some f)
    (hm : fileMarkMatches pat f.originalRelativePath = true) :
    scanLoop mark pat key val (some fi :: rest) done arena excl matched =
      .err ⟨arena, done ++ some fi :: rest, excl⟩ (badErr key mark) := by
  simp only [scanLoop, hf]
  rw [if_pos hm]
  rcases hbad with hk | ⟨hk, hv⟩ | ⟨hk, hv⟩ | ⟨hk, hv⟩ | ⟨hk, hv⟩
  · have h1 : ¬(key = "path") := fun h => hk (by simp [recognizedKeys, h])
    have h2 : ¬(key = "exclude") := fun h => hk (by simp [recognizedKeys, h])
    have h3 : ¬(key = "type") := fun h => hk (by simp [recognizedKeys, h])
    have h4 : ¬(key = "for-output") := fun h => hk (by simp [recognizedKeys, h])
    have h5 : ¬(key = "exclusive-for-output") := fun h => hk (by simp [recognizedKeys, h])
    rw [if_neg h1, if_neg h2, if_neg h3, if_neg h4, if_neg h5]
    rw [show badErr key mark = .unknownMarkKey mark from by simp [badErr, hk]]
  · subst hk
    rw [if_neg (by decide : ¬(("exclude" : String) = "path")), if_pos rfl, if_neg hv]
    rw [show badErr "exclude" mark = .invalidMarkValue mark from by
      unfold badErr
      rw [if_pos (by decide : ("exclude" : String) ∈ recognizedKeys)]]
  · subst hk
    rw [if_neg (by decide : ¬(("type" : String) = "path")),
      if_neg (by decide : ¬(("type" : String) = "exclude")), if_pos rfl]
    simp only [hv]
    rw [show badErr "type" mark = .invalidMarkValue mark from by
      unfold badErr
      rw [if_pos (by decide : ("type" : String) ∈ recognizedKeys)]]
  · subst hk
    rw [if_neg (by decide : ¬(("for-output" : String) = "path")),
      if_neg (by decide : ¬(("for-output" : String) = "exclude")),
      if_neg (by decide : ¬(("for-output" : String) = "type")), if_pos rfl, if_neg hv]
    rw [show badErr "for-output" mark = .invalidMarkValue mark from by
      unfold badErr
      rw [if_pos (by decide : ("for-output" : String) ∈ recognizedKeys)]]
  · subst hk
    rw [if_neg (by decide : ¬(("exclusive-for-output" : String) = "path")),
      if_neg (by decide : ¬(("exclusive-for-output" : String) = "exclude")),
      if_neg (by decide : ¬(("exclusive-for-output" : String) = "type")),
      if_neg (by decide : ¬(("exclusive-for-output" : String) = "for-output")),
      if_pos rfl, if_neg hv]
    rw [show badErr "exclusive-for-output" mark = .invalidMarkValue mark from by
      unfold badErr
      rw [if_pos (by decide : ("exclusive-for-output" : String) ∈ recognizedKeys)]]

theorem scanLoop_bad_kv_first_match (mark pat key val : String) (hbad : badKV key val) :
    ∀ (s₁ : List (Option Nat)) (fi : Nat) (s₂ done : List (Option Nat)) (arena : List File)
      (excl : List Nat) (matched : Bool) (f : File),
      (∀ slot ∈ s₁, liveNoMatch arena pat slot) →
      arena[fi]? = some f → fileMarkMatches pat f.originalRelativePath = true →
      scanLoop mark pat key val (s₁ ++ some fi :: s₂) done arena excl matched =
        .err ⟨arena, done ++ s₁ ++ some fi :: s₂, excl⟩ (badErr key mark) := by
  intro s₁
  induction s₁ with
  | nil =>
    intro fi s₂ done arena excl matched f _ hf hm
    simpa using scanLoop_bad_kv_at_match mark pat key val hbad fi s₂ done arena excl
      matched f hf hm
  | cons slot s₁' ih =>
    intro fi s₂ done arena excl matched f h hf hm
    obtain ⟨fj, g, rfl, hg, hnm⟩ := h slot (List.mem_cons_self slot s₁')
    simp only [List.cons_append, scanLoop, hg, hnm, Bool.false_eq_true, if_false,
      List.append_eq]
    rw [ih fi s₂ (done ++ [some fj]) arena excl matched f
      (fun s hs => h s (List.mem_cons_of_mem _ hs)) hf hm]
    simp

/-- C10 counterexample: after `a.yml:exclude=true` tombstones the first slot,
the later mark `b.yml:badkey=1` has an unrecognized key and its pattern
matches `b.yml`, yet neither the unknown-key error (at the first matching
file) nor the unmatched-pattern error is raised: the scan dereferences the
`nil` slot and panics before reaching any file. -/
theorem bad_key_after_exclude_panics :
    applyFileMarks
        [⟨"a.yml", "a.yml", .unknown, false, true⟩, ⟨"b.yml", "b.yml", .unknown, false, true⟩]
        ["a.yml:exclude=true", "b.yml:badkey=1"] =
      .panicked ⟨[⟨"a.yml", "a.yml", .unknown, false, true⟩,
        ⟨"b.yml", "b.yml", .unknown, false, true⟩], [none, some 1], []⟩ := by
  decide

/-- C10 (amended): a directive with an unrecognized key or an illegal value
is only judged when the scan encounters a matching file, and the scan must
reach it over live slots (a tombstoned slot encountered first instead
crashes with the nil dereference of claim C2 before any key/value error) —
if its pattern matches zero files and every slot is live, the whole
operation fails with the unmatched-pattern error instead of the
unknown-key/invalid-value error; if some file matches and every slot before
the first matching file is live, the error is the key's own (unknown-key for
an unrecognized key, invalid-value otherwise) and is raised at that first
matching file in collection order, with the state unchanged and the slots
after that first match never examined. -/
theorem key_value_checked_only_at_match :
    (∀ (st : MarkState) (mark pat key val : String),
      parseFileMark mark = .ok (pat, key, val) → badKV key val →
      (∀ slot ∈ st.slots, liveNoMatch st.arena pat slot) →
      applyOneMark st mark = .err st (.unmatchedMarkPattern mark)) ∧
    (∀ (st : MarkState) (mark pat key val : String) (s₁ s₂ : List (Option Nat)) (fi : Nat)
      (f : File),
      parseFileMark mark = .ok (pat, key, val) → badKV key val →
      st.slots = s₁ ++ some fi :: s₂ →
      (∀ slot ∈ s₁, liveNoMatch st.arena pat slot) →
      st.arena[fi]? = some f → fileMarkMatches pat f.originalRelativePath = true →
      applyOneMark st mark = .err st (badErr key mark)) := by
  constructor
  · intro st mark pat key val hp _ hzero
    have hs := scanLoop_no_match mark pat key val st.slots [] st.arena st.excl false hzero
    simp only [applyOneMark, hp, hs, List.nil_append, Bool.false_eq_true, if_false]
  · intro st mark pat key val s₁ s₂ fi f hp hbad hslots h1 hf hm
    have hs := scanLoop_bad_kv_first_match mark pat key val hbad s₁ fi s₂ [] st.arena
      st.excl false f h1 hf hm
    simp only [List.nil_append] at hs
    rw [← hslots] at hs
    simp only [applyOneMark, hp, hs]

/-- Witness for C10: the unrecognized key `badkey` yields the
unmatched-pattern error when its pattern matches nothing, and the unknown-key
error when its pattern matches the one file. -/
theorem key_value_checked_only_at_match_witness :
    applyOneMark (initState [⟨"a.yml", "a.yml", .unknown, false, true⟩]) "zzz.yml:badkey=1" =
      .err (initState [⟨"a.yml", "a.yml", .unknown, false, true⟩])
        (.unmatchedMarkPattern "zzz.yml:badkey=1") ∧
    applyOneMark (initState [⟨"a.yml", "a.yml", .unknown, false, true⟩]) "a.yml:badkey=1" =
      .err (initState [⟨"a.yml", "a.yml", .unknown, false, true⟩])
        (badErr "badkey" "a.yml:badkey=1") := by
  constructor
  · apply key_value_checked_only_at_match.1
      (initState [⟨"a.yml", "a.yml", .unknown, false, true⟩]) "zzz.yml:badkey=1"
      "zzz.yml" "badkey" "1" rfl (.inl (by decide))
    intro slot hs
    have hs' : slot = some 0 := by simpa [initState, List.range_succ] using hs
    subst hs'
    exact ⟨0, ⟨"a.yml", "a.yml", .unknown, false, true⟩, rfl, rfl, by decide⟩
  · exact key_value_checked_only_at_match.2 _ _ "a.yml" "badkey" "1" [] [] 0
      ⟨"a.yml", "a.yml", .unknown, false, true⟩ rfl (.inl (by decide)) rfl
      (fun s hs => absurd hs (List.not_mem_nil s)) rfl (by decide)

end Ytt
